import Mathlib

set_option maxRecDepth 8000

/-! Formal model of the POSOCO daily PSP report pipeline implemented in
posoco/management/commands/posoco.py.  Python strings are modelled as Lean
strings or lists of characters, pandas tables as lists of rows of optional
string cells (none is NaN), and network and filesystem effects as explicit
oracle parameters.  Every definition below is translated from the Python
source; comments cite the function it embeds. -/

-- ### Characters and digits

def isDig (c : Char) : Bool := 48 ≤ c.toNat && c.toNat ≤ 57

def charDigitVal (c : Char) : Nat := c.toNat - 48

def digitChar (n : Nat) : Char :=
  match n % 10 with
  | 0 => '0'
  | 1 => '1'
  | 2 => '2'
  | 3 => '3'
  | 4 => '4'
  | 5 => '5'
  | 6 => '6'
  | 7 => '7'
  | 8 => '8'
  | _ => '9'

@[simp] theorem digitChar_isDig (n : Nat) : isDig (digitChar n) = true := by
  unfold digitChar
  set k := n % 10 with hk
  have hlt : k < 10 := by omega
  interval_cases k <;> rfl

@[simp] theorem charDigitVal_digitChar (n : Nat) : charDigitVal (digitChar n) = n % 10 := by
  unfold digitChar
  set k := n % 10 with hk
  have hlt : k < 10 := by omega
  interval_cases k <;> rfl

@[simp] theorem digitChar_ne_dash (n : Nat) : (digitChar n == '-') = false := by
  unfold digitChar
  set k := n % 10 with hk
  have hlt : k < 10 := by omega
  interval_cases k <;> rfl

@[simp] theorem isDig_dash : isDig '-' = false := by decide

theorem beq_dash_false_of_isDig {c : Char} (h : isDig c = true) : (c == '-') = false := by
  cases hb : c == '-'
  · rfl
  · have : c = '-' := eq_of_beq hb
    rw [this] at h
    simp [isDig] at h

-- ### Calendar dates (Python datetime.date / datetime.datetime)

structure Date where
  year : Nat
  month : Nat
  day : Nat
deriving DecidableEq, Repr

def isLeap (y : Nat) : Bool := (y % 4 == 0 && y % 100 != 0) || (y % 400 == 0)

def daysInMonth (y m : Nat) : Nat :=
  if m == 2 then (if isLeap y then 29 else 28)
  else if m == 4 || m == 6 || m == 9 || m == 11 then 30
  else 31

/-- Validity of a Python datetime.date: year 1..9999, month 1..12,
day within the month. -/
def Date.valid (d : Date) : Bool :=
  1 ≤ d.year && d.year ≤ 9999 && 1 ≤ d.month && d.month ≤ 12 &&
  1 ≤ d.day && d.day ≤ daysInMonth d.year d.month

/-- The datetime.date constructor as used after strptime: returns the date
when the components are valid and fails (ValueError) otherwise. -/
def mkDate (y m d : Nat) : Option Date :=
  if Date.valid ⟨y, m, d⟩ then some ⟨y, m, d⟩ else none

structure DateTime where
  date : Date
  hour : Nat
  minute : Nat
  second : Nat
deriving DecidableEq, Repr

def asDT (d : Date) : DateTime := ⟨d, 0, 0, 0⟩

/-- The datetime.datetime constructor: date validity plus hour 0..23,
minute 0..59, second 0..59 (leap seconds are rejected). -/
def mkDateTime (y m d h mi s : Nat) : Option DateTime :=
  if Date.valid ⟨y, m, d⟩ && h ≤ 23 && mi ≤ 59 && s ≤ 59 then
    some ⟨⟨y, m, d⟩, h, mi, s⟩
  else none

theorem daysInMonth_le_31 (y m : Nat) : daysInMonth y m ≤ 31 := by
  unfold daysInMonth
  split_ifs <;> omega

-- ### strftime style renderings (zero padded, four digit years)

def pad2 (n : Nat) : List Char := [digitChar (n / 10), digitChar n]

def pad4 (n : Nat) : List Char :=
  [digitChar (n / 1000), digitChar (n / 100), digitChar (n / 10), digitChar n]

/-- Rendering "%Y-%m-%d". -/
def fmtISOd (d : Date) : List Char :=
  pad4 d.year ++ '-' :: (pad2 d.month ++ '-' :: pad2 d.day)

/-- Rendering "%d-%m-%Y". -/
def fmtDMYdash (d : Date) : List Char :=
  pad2 d.day ++ '-' :: (pad2 d.month ++ '-' :: pad4 d.year)

/-- Rendering "%d%m%Y". -/
def fmtDDMMYYYY (d : Date) : List Char :=
  pad2 d.day ++ (pad2 d.month ++ pad4 d.year)

/-- Rendering "%Y%m%d". -/
def fmtYYYYMMDD (d : Date) : List Char :=
  pad4 d.year ++ (pad2 d.month ++ pad2 d.day)

-- ### Fixed width regular expression patterns used by _parse_date_from_string

inductive Slot where
  | dig : Slot
  | dash : Slot
deriving DecidableEq

/-- Does the fixed width template match at the head of the string? -/
def matchTpl : List Slot → List Char → Bool
  | [], _ => true
  | _ :: _, [] => false
  | Slot.dig :: ts, c :: cs => isDig c && matchTpl ts cs
  | Slot.dash :: ts, c :: cs => (c == '-') && matchTpl ts cs

/-- The substring a successful template match captures. -/
def tplTake : List Slot → List Char → List Char
  | [], _ => []
  | _ :: _, [] => []
  | _ :: ts, c :: cs => c :: tplTake ts cs

/-- re.search for a fixed width template: leftmost match, returning the
captured substring. -/
def reSearch (tpl : List Slot) : List Char → Option (List Char)
  | [] => none
  | c :: cs =>
    if matchTpl tpl (c :: cs) then some (tplTake tpl (c :: cs))
    else reSearch tpl cs

def pat1 : List Slot :=
  [Slot.dig, Slot.dig, Slot.dig, Slot.dig, Slot.dash,
   Slot.dig, Slot.dig, Slot.dash, Slot.dig, Slot.dig]

def pat2 : List Slot :=
  [Slot.dig, Slot.dig, Slot.dash, Slot.dig, Slot.dig, Slot.dash,
   Slot.dig, Slot.dig, Slot.dig, Slot.dig]

def pat3 : List Slot :=
  [Slot.dig, Slot.dig, Slot.dig, Slot.dig, Slot.dig, Slot.dig, Slot.dig, Slot.dig]

def pat4 : List Slot := pat3

-- ### strptime (CPython _strptime directive semantics)

/-- CPython regex for the %d directive, two digit alternatives:
3[01] or [12] digit or 0[1-9]. -/
def day2ok (a b : Char) : Bool :=
  (a == '3' && (b == '0' || b == '1')) ||
  ((a == '1' || a == '2') && isDig b) ||
  (a == '0' && isDig b && !(b == '0'))

/-- CPython regex for the %m directive, two digit alternatives:
1[0-2] or 0[1-9]. -/
def month2ok (a b : Char) : Bool :=
  (a == '1' && (b == '0' || b == '1' || b == '2')) ||
  (a == '0' && isDig b && !(b == '0'))

/-- One digit alternative [1-9] shared by %d and %m. -/
def dig19 (c : Char) : Bool := isDig c && !(c == '0')

/-- %H two digit alternatives: 2[0-3] or [01] digit. -/
def hour2ok (a b : Char) : Bool :=
  (a == '2' && (b == '0' || b == '1' || b == '2' || b == '3')) ||
  ((a == '0' || a == '1') && isDig b)

/-- %M two digit alternative: [0-5] digit. -/
def min2ok (a b : Char) : Bool :=
  (a == '0' || a == '1' || a == '2' || a == '3' || a == '4' || a == '5') && isDig b

/-- %S two digit alternatives: 6[01] or [0-5] digit. -/
def sec2ok (a b : Char) : Bool :=
  (a == '6' && (b == '0' || b == '1')) || min2ok a b

/-- A directive that accepts two digits (tried first, as in the CPython
alternation order) or one digit.  Regex backtracking into a shorter
alternative only happens when the immediately following literal fails,
which for the formats in this file yields the same result as this greedy
reading (the alternatives are digit classes and every directive is
followed by a non digit literal or the end check). -/
def p2or1 (ok2 : Char → Char → Bool) (ok1 : Char → Bool) :
    List Char → Option (Nat × List Char)
  | a :: b :: rest =>
    if ok2 a b then some (10 * charDigitVal a + charDigitVal b, rest)
    else if ok1 a then some (charDigitVal a, b :: rest)
    else none
  | [a] => if ok1 a then some (charDigitVal a, []) else none
  | [] => none

/-- %Y: exactly four digits. -/
def pFour : List Char → Option (Nat × List Char)
  | a :: b :: c :: d :: rest =>
    if isDig a && isDig b && isDig c && isDig d then
      some (1000 * charDigitVal a + 100 * charDigitVal b +
            10 * charDigitVal c + charDigitVal d, rest)
    else none
  | _ => none

def pLit (c : Char) : List Char → Option (List Char)
  | x :: xs => if x == c then some xs else none
  | [] => none

/-- strptime with format "%Y-%m-%d" (full string must be consumed). -/
def strptimeYmd (s : List Char) : Option Date :=
  (pFour s).bind (fun p1 =>
    (pLit '-' p1.2).bind (fun r2 =>
      (p2or1 month2ok dig19 r2).bind (fun p2 =>
        (pLit '-' p2.2).bind (fun r4 =>
          (p2or1 day2ok dig19 r4).bind (fun p3 =>
            if p3.2.isEmpty then mkDate p1.1 p2.1 p3.1 else none)))))

/-- strptime with format "%d-%m-%Y". -/
def strptimeDmY (s : List Char) : Option Date :=
  (p2or1 day2ok dig19 s).bind (fun p1 =>
    (pLit '-' p1.2).bind (fun r2 =>
      (p2or1 month2ok dig19 r2).bind (fun p2 =>
        (pLit '-' p2.2).bind (fun r4 =>
          (pFour r4).bind (fun p3 =>
            if p3.2.isEmpty then mkDate p3.1 p2.1 p1.1 else none)))))

/-- strptime with format "%d%m%Y" (applied to eight digit captures). -/
def strptimeDmY8 (s : List Char) : Option Date :=
  (p2or1 day2ok dig19 s).bind (fun p1 =>
    (p2or1 month2ok dig19 p1.2).bind (fun p2 =>
      (pFour p2.2).bind (fun p3 =>
        if p3.2.isEmpty then mkDate p3.1 p2.1 p1.1 else none)))

/-- strptime with format "%Y%m%d". -/
def strptimeYmd8 (s : List Char) : Option Date :=
  (pFour s).bind (fun p1 =>
    (p2or1 month2ok dig19 p1.2).bind (fun p2 =>
      (p2or1 day2ok dig19 p2.2).bind (fun p3 =>
        if p3.2.isEmpty then mkDate p1.1 p2.1 p3.1 else none)))

/-- strptime with format "%Y-%m-%d" followed by sep and "%H:%M:%S". -/
def strptimeYmdHMS (sep : Char) (s : List Char) : Option DateTime :=
  (pFour s).bind (fun p1 =>
    (pLit '-' p1.2).bind (fun r2 =>
      (p2or1 month2ok dig19 r2).bind (fun p2 =>
        (pLit '-' p2.2).bind (fun r4 =>
          (p2or1 day2ok dig19 r4).bind (fun p3 =>
            (pLit sep p3.2).bind (fun r6 =>
              (p2or1 hour2ok isDig r6).bind (fun p4 =>
                (pLit ':' p4.2).bind (fun r8 =>
                  (p2or1 min2ok isDig r8).bind (fun p5 =>
                    (pLit ':' p5.2).bind (fun r10 =>
                      (p2or1 sec2ok isDig r10).bind (fun p6 =>
                        if p6.2.isEmpty then
                          mkDateTime p1.1 p2.1 p3.1 p4.1 p5.1 p6.1
                        else none)))))))))))

-- ### datetime.fromisoformat (on input already split at the first dot)

def parseIsoDateFixed : List Char → Option Date
  | [y1, y2, y3, y4, c1, m1, m2, c2, d1, d2] =>
    if isDig y1 && isDig y2 && isDig y3 && isDig y4 && c1 == '-' &&
       isDig m1 && isDig m2 && c2 == '-' && isDig d1 && isDig d2 then
      mkDate (1000 * charDigitVal y1 + 100 * charDigitVal y2 +
              10 * charDigitVal y3 + charDigitVal y4)
             (10 * charDigitVal m1 + charDigitVal m2)
             (10 * charDigitVal d1 + charDigitVal d2)
    else none
  | _ => none

def parseIsoTimeFixed (d : Date) : List Char → Option DateTime
  | [h1, h2] =>
    if isDig h1 && isDig h2 then
      mkDateTime d.year d.month d.day (10 * charDigitVal h1 + charDigitVal h2) 0 0
    else none
  | [h1, h2, ':', m1, m2] =>
    if isDig h1 && isDig h2 && isDig m1 && isDig m2 then
      mkDateTime d.year d.month d.day (10 * charDigitVal h1 + charDigitVal h2)
        (10 * charDigitVal m1 + charDigitVal m2) 0
    else none
  | [h1, h2, ':', m1, m2, ':', s1, s2] =>
    if isDig h1 && isDig h2 && isDig m1 && isDig m2 && isDig s1 && isDig s2 then
      mkDateTime d.year d.month d.day (10 * charDigitVal h1 + charDigitVal h2)
        (10 * charDigitVal m1 + charDigitVal m2)
        (10 * charDigitVal s1 + charDigitVal s2)
    else none
  | _ => none

/-- datetime.fromisoformat: a strict "YYYY-MM-DD" date, optionally followed
by one separator character and a zero padded "HH", "HH:MM" or "HH:MM:SS"
time (fraction digits were already removed by the caller via split at a
dot). -/
def fromIso (s : List Char) : Option DateTime :=
  match parseIsoDateFixed (s.take 10) with
  | none => none
  | some d =>
    match s.drop 10 with
    | [] => some (asDT d)
    | _ :: t => parseIsoTimeFixed d t

-- ### _parse_date_from_string

def splitDotHead (s : List Char) : List Char := s.takeWhile (fun c => !(c == '.'))

/-- Python or on options with None as the failure value. -/
def orO {α : Type} : Option α → Option α → Option α
  | some x, _ => some x
  | none, b => b

/-- _parse_date_from_string: try the four regex pattern and format pairs in
order (a pattern whose strptime raises falls through to the next pattern),
then datetime.fromisoformat on the text before the first dot. -/
def parse_date_from_string (s : List Char) : Option DateTime :=
  if s.isEmpty then none
  else
    orO ((reSearch pat1 s).bind (fun g => (strptimeYmd g).map asDT))
      (orO ((reSearch pat2 s).bind (fun g => (strptimeDmY g).map asDT))
        (orO ((reSearch pat3 s).bind (fun g => (strptimeDmY8 g).map asDT))
          (orO ((reSearch pat4 s).bind (fun g => (strptimeYmd8 g).map asDT))
            (fromIso (splitDotHead s)))))

-- ### Python string helpers (whitespace per str.strip and str.split)

def pyWsChar (c : Char) : Bool :=
  c == ' ' || c == '\t' || c == '\n' || c == '\r' || c == '\x0b' || c == '\x0c'

/-- str.strip with no arguments. -/
def pyStrip (s : String) : String :=
  String.mk (((s.data.dropWhile pyWsChar).reverse.dropWhile pyWsChar).reverse)

def pySplitWsAux : List Char → List Char → List (List Char)
  | [], acc => if acc.isEmpty then [] else [acc.reverse]
  | c :: cs, acc =>
    if pyWsChar c then
      if acc.isEmpty then pySplitWsAux cs [] else acc.reverse :: pySplitWsAux cs []
    else pySplitWsAux cs (c :: acc)

/-- str.split with no arguments: split on whitespace runs, dropping empties. -/
def pySplitWs (s : List Char) : List (List Char) := pySplitWsAux s []

def joinWithSpace : List (List Char) → List Char
  | [] => []
  | [w] => w
  | w :: ws => w ++ ' ' :: joinWithSpace ws

/-- The Table A label cleaning in extract_tables_from_pdf:
str(key).replace of carriage returns by spaces, str.split, then a space
join, collapsing every whitespace run and trimming. -/
def collapseWs (s : String) : String :=
  String.mk (joinWithSpace (pySplitWs (s.data.map (fun c => if c == '\r' then ' ' else c))))

def listIsPrefixOf : List Char → List Char → Bool
  | [], _ => true
  | _ :: _, [] => false
  | a :: as, b :: bs => (a == b) && listIsPrefixOf as bs

/-- Python substring containment (the in operator on str). -/
def listContainsSub (needle : List Char) : List Char → Bool
  | [] => needle.isEmpty
  | c :: cs => listIsPrefixOf needle (c :: cs) || listContainsSub needle cs

def strContainsStr (hay needle : String) : Bool := listContainsSub needle.data hay.data

def strStarts (s p : String) : Bool := listIsPrefixOf p.data s.data

def strEqS (a b : String) : Bool := a.data == b.data

-- ### get_short_key_simple (the key normalizer inside extract_tables_from_pdf)

/-- get_short_key_simple: strip the label, then an ordered rule list of
startswith and equality tests, most specific first; unmatched labels fall
through to the stripped label itself. -/
def get_short_key_simple (long_key : String) : String :=
  let key := pyStrip long_key
  if strStarts key "Demand Met during Evening Peak" then "demand_evening_peak"
  else if strStarts key "Energy Shortage" then "energy_shortage"
  else if strStarts key "Maximum Demand Met During the Day" then "max_demand_day"
  else if strStarts key "Time Of Maximum Demand Met" then "time_of_max_demand"
  else if strStarts key "Peak Shortage" then "peak_shortage"
  else if strStarts key "Energy Met" then "energy"
  else if strStarts key "Hydro Gen" then "hydro"
  else if strStarts key "Wind Gen" then "wind"
  else if strStarts key "Solar Gen" then "solar"
  else if strEqS key "Coal" then "coal"
  else if strEqS key "Lignite" then "lignite"
  else if strEqS key "Hydro" then "hydro"
  else if strEqS key "Nuclear" then "nuclear"
  else if strEqS key "Gas, Naptha & Diesel" then "gas_naptha_diesel"
  else if strStarts key "RES" then "res_total"
  else if strEqS key "Total" then "total"
  else key

-- ### Extracted tables (tabula dataframes)

/-- One dataframe from tabula.read_pdf: column names and rows of optional
string cells (none is NaN).  The first column carries the row labels. -/
structure PTable where
  cols : List String
  rows : List (List (Option String))
deriving DecidableEq, Repr

/-- pandas df.empty: a dataframe with no rows or no columns. -/
def PTable.isEmptyDf (t : PTable) : Bool := t.rows.isEmpty || t.cols.isEmpty

/-- str(x) on an index cell: NaN prints as "nan". -/
def pyStr : Option String → String
  | some s => s
  | none => "nan"

/-- df.iloc over the first column, astype(str). -/
def firstColStrs (t : PTable) : List String :=
  t.rows.map (fun r => pyStr (r.headD none))

def anchorA : String := "Demand Met during Evening Peak"

def hasAnchorA (t : PTable) : Bool :=
  (firstColStrs t).any (fun s => strContainsStr s anchorA)

def hasAnchorG (t : PTable) : Bool :=
  (firstColStrs t).any (fun s => strContainsStr s "Coal")

/-- The table identification loop of extract_tables_from_pdf: skip empty
dataframes, bind (or rebind) Table A when the first column mentions the
Table A anchor, else bind (or rebind) Table G when it mentions "Coal", and
stop as soon as both are bound. -/
def findTablesLoop : Option PTable → Option PTable → List PTable →
    Option PTable × Option PTable
  | a, g, [] => (a, g)
  | a, g, t :: rest =>
    if t.isEmptyDf || t.cols.length == 0 then findTablesLoop a g rest
    else
      let a2 := if hasAnchorA t then some t else a
      let g2 := if !hasAnchorA t && hasAnchorG t then some t else g
      if a2.isSome && g2.isSome then (a2, g2) else findTablesLoop a2 g2 rest

def findTables (ts : List PTable) : Option PTable × Option PTable :=
  findTablesLoop none none ts

-- ### Row normalization (set_index, dropna, row loops of extract_tables_from_pdf)

/-- A value stored under a short key in the output JSON: either the
explicit null of the empty template or a dict of column name to cell. -/
inductive JVal where
  | jnull : JVal
  | jdict : List (String × Option String) → JVal
deriving DecidableEq, Repr

/-- Python dict assignment d[k] = v: update in place when the key exists
(keeping its position), else append. -/
def dictUpsert (d : List (String × JVal)) (k : String) (v : JVal) :
    List (String × JVal) :=
  if d.any (fun p => p.1 == k) then
    d.map (fun p => if p.1 == k then (k, v) else p)
  else d ++ [(k, v)]

/-- row.dropna().to_dict(): pair the value columns with the cells and keep
only the non NaN entries. -/
def rowToDict (valueCols : List String) (cells : List (Option String)) :
    List (String × Option String) :=
  (valueCols.zip cells).filterMap
    (fun p => match p.2 with
      | some v => some (p.1, some v)
      | none => none)

/-- Rows kept by set_index followed by dropna with how equal to all: a row
survives when some value cell is non NaN. -/
def keptRows (t : PTable) : List (List (Option String)) :=
  t.rows.filter (fun r => !(r.tail.all (fun c => c.isNone)))

/-- The canonical key a row is emitted under, given the label cleaning
function of the table being processed. -/
def rowShortKey (clean : String → String) (r : List (Option String)) : String :=
  get_short_key_simple (clean (pyStr (r.headD none)))

/-- The per table processing loop of extract_tables_from_pdf: set_index on
the first column, dropna rows that are entirely NaN, then build the dict
mapping cleaned and classified labels to the non NaN cells of each row. -/
def processTable (clean : String → String) (t : PTable) : List (String × JVal) :=
  (keptRows t).foldl
    (fun dict r =>
      dictUpsert dict (rowShortKey clean r) (JVal.jdict (rowToDict t.cols.tail r.tail)))
    []

-- ### The final JSON value and the empty template

structure FinalJson where
  tableA : List (List (String × JVal))
  tableG : List (List (String × JVal))
deriving DecidableEq, Repr

def templateA : List (String × JVal) :=
  [("demand_evening_peak", JVal.jnull), ("peak_shortage", JVal.jnull),
   ("energy", JVal.jnull), ("hydro", JVal.jnull), ("wind", JVal.jnull),
   ("solar", JVal.jnull), ("energy_shortage", JVal.jnull),
   ("max_demand_day", JVal.jnull), ("time_of_max_demand", JVal.jnull)]

def templateG : List (String × JVal) :=
  [("coal", JVal.jnull), ("lignite", JVal.jnull), ("hydro", JVal.jnull),
   ("nuclear", JVal.jnull), ("gas_naptha_diesel", JVal.jnull),
   ("res_total", JVal.jnull), ("total", JVal.jnull)]

def templateJson : FinalJson := ⟨[templateA], [templateG]⟩

/-- extract_tables_from_pdf on an already parsed table list (a tabula
exception is modelled by passing the empty list, exactly what the except
branch produces).  Table A labels are cleaned with collapseWs, Table G
labels only with pyStrip; if neither table was identified the fixed empty
template replaces the output. -/
def extract_tables_from_pdf (tables : List PTable) : FinalJson :=
  let fd := findTables tables
  let ja := match fd.1 with
    | some t => [processTable collapseWs t]
    | none => []
  let jg := match fd.2 with
    | some t => [processTable pyStrip t]
    | none => []
  if fd.1.isNone && fd.2.isNone then templateJson else ⟨ja, jg⟩

-- ### save_to_db and the Django upsert

structure RowA where
  category : String
  report_date : Date
  nr : Option String
  wr : Option String
  sr : Option String
  er : Option String
  ner : Option String
  total : Option String
deriving DecidableEq, Repr

structure RowG where
  fuel_type : String
  report_date : Date
  nr : Option String
  wr : Option String
  sr : Option String
  er : Option String
  ner : Option String
  all_india : Option String
  share_percent : Option String
deriving DecidableEq, Repr

/-- Python dict.get with default None. -/
def dictGet (k : String) (d : List (String × Option String)) : Option String :=
  match d.find? (fun p => p.1 == k) with
  | some p => p.2
  | none => none

/-- The Table A loop of save_to_db: skip null or non dict values and dicts
whose values are all None, otherwise write one row keyed by category and
the save time date. -/
def rowWritesA (today : Date) (d : List (String × JVal)) : List RowA :=
  d.filterMap (fun p =>
    match p.2 with
    | JVal.jnull => none
    | JVal.jdict vs =>
      if vs.all (fun q => q.2.isNone) then none
      else some ⟨p.1, today, dictGet "NR" vs, dictGet "WR" vs, dictGet "SR" vs,
                 dictGet "ER" vs, dictGet "NER" vs, dictGet "TOTAL" vs⟩)

/-- The Table G loop of save_to_db. -/
def rowWritesG (today : Date) (d : List (String × JVal)) : List RowG :=
  d.filterMap (fun p =>
    match p.2 with
    | JVal.jnull => none
    | JVal.jdict vs =>
      if vs.all (fun q => q.2.isNone) then none
      else some ⟨p.1, today, dictGet "NR" vs, dictGet "WR" vs, dictGet "SR" vs,
                 dictGet "ER" vs, dictGet "NER" vs, dictGet "All India" vs,
                 dictGet "% Share" vs⟩)

/-- save_to_db: today is datetime.now at save time (the target date of the
run is not a parameter of the Python function).  Returns the rows written
to each store, in order. -/
def save_to_db (today : Date) (fj : FinalJson) : List RowA × List RowG :=
  let aw := match fj.tableA with
    | [] => []
    | d :: _ => if d.isEmpty then [] else rowWritesA today d
  let gw := match fj.tableG with
    | [] => []
    | d :: _ => if d.isEmpty then [] else rowWritesG today d
  (aw, gw)

def rowKeyA (r : RowA) : String × Date := (r.category, r.report_date)

def rowKeyG (r : RowG) : String × Date := (r.fuel_type, r.report_date)

/-- update_or_create keyed by (category, report_date): replace the rows
matching the key, else insert. -/
def upsertA (db : List RowA) (r : RowA) : List RowA :=
  if db.any (fun x => rowKeyA x = rowKeyA r) then
    db.map (fun x => if rowKeyA x = rowKeyA r then r else x)
  else db ++ [r]

def applySaveA (db : List RowA) (ws : List RowA) : List RowA := ws.foldl upsertA db

def keysA (db : List RowA) : List (String × Date) := db.map rowKeyA

/-- The stored row for a key, if any (the row update_or_create would
update). -/
def lookupA (db : List RowA) (k : String × Date) : Option RowA :=
  db.find? (fun x => rowKeyA x = k)

/-- update_or_create keyed by (fuel_type, report_date) for the Table G
store. -/
def upsertG (db : List RowG) (r : RowG) : List RowG :=
  if db.any (fun x => rowKeyG x = rowKeyG r) then
    db.map (fun x => if rowKeyG x = rowKeyG r then r else x)
  else db ++ [r]

def applySaveG (db : List RowG) (ws : List RowG) : List RowG := ws.foldl upsertG db

def keysG (db : List RowG) : List (String × Date) := db.map rowKeyG

def lookupG (db : List RowG) (k : String × Date) : Option RowG :=
  db.find? (fun x => rowKeyG x = k)

/-- The persistence step of Command.handle: save_to_db runs exactly when
one of the two output lists is non empty; the date written is the wall
clock date now, not the target date parsed from the command line. -/
def handleSaveStep (now : Date) (fj : FinalJson) : Option (List RowA × List RowG) :=
  if !fj.tableA.isEmpty || !fj.tableG.isEmpty then some (save_to_db now fj) else none

/-- The date resolution step of Command.handle: an absent or empty date
argument means today, an unparseable one aborts the run (none). -/
def handleTargetDate (rawDate : Option String) (now : Date) : Option Date :=
  match rawDate with
  | none => some now
  | some s =>
    if s.isEmpty then some now
    else
      match parse_date_from_string s.data with
      | some dt => some dt.date
      | none => none

-- ### Listing entries (one item of retData in fetch_latest_pdf)

/-- One file listing entry.  Fields mirror the dictionary keys the Python
code reads; none models an absent key, and values are raw strings. -/
structure Entry where
  mimeType : Option String
  fileDate : Option String
  createdOn : Option String
  lastModified : Option String
  fileDateL : Option String
  createdOnL : Option String
  lastModifiedL : Option String
  filePath : Option String
  fileName : Option String
  path : Option String
  fileNameL : Option String
  filepathL : Option String
  filepathC : Option String
deriving DecidableEq, Repr

/-- The metadata fields tried by infer_date_safe, in order, keeping only
truthy (present and non empty) values: FileDate, CreatedOn, LastModified
and their lower case spellings. -/
def metaFieldVals (e : Entry) : List String :=
  [e.fileDate, e.createdOn, e.lastModified, e.fileDateL, e.createdOnL,
   e.lastModifiedL].foldr
    (fun o acc => match o with
      | some s => if s.isEmpty then acc else s :: acc
      | none => acc) []

/-- The path fields tried next: FilePath, FileName, Path, fileName,
filepath, Filepath, each read with default empty string. -/
def pathFieldVals (e : Entry) : List String :=
  [e.filePath, e.fileName, e.path, e.fileNameL, e.filepathL, e.filepathC].map
    (fun o => o.getD "")

/-- The three strptime formats tried on a metadata value (after cutting at
the first dot), then _parse_date_from_string on the full value. -/
def tryMetaFormats (v : List Char) : Option DateTime :=
  orO (strptimeYmdHMS 'T' (splitDotHead v))
    (orO (strptimeYmdHMS ' ' (splitDotHead v))
      (orO ((strptimeYmd (splitDotHead v)).map asDT)
        (parse_date_from_string v)))

def firstSomeL {α : Type} : List (Option α) → Option α
  | [] => none
  | o :: os => orO o (firstSomeL os)

/-- infer_date_safe: best effort date inference for a listing entry. -/
def infer_date_safe (e : Entry) : Option DateTime :=
  orO (firstSomeL ((metaFieldVals e).map (fun v => tryMetaFormats v.data)))
    (firstSomeL ((pathFieldVals e).map (fun v => parse_date_from_string v.data)))

/-- Chronological order on datetimes as a mixed radix number (components
are within their radix bounds for every datetime this pipeline builds). -/
def dtNatKey (t : DateTime) : Nat :=
  ((((t.date.year * 13 + t.date.month) * 32 + t.date.day) * 24 + t.hour) * 60 +
    t.minute) * 60 + t.second

/-- file_date_key: the inferred date, with 1970-01-01 as the sentinel. -/
def file_date_key (e : Entry) : Nat :=
  dtNatKey ((infer_date_safe e).getD (asDT ⟨1970, 1, 1⟩))

/-- Stable insertion for descending sort by file_date_key. -/
def insertDesc (x : Entry) : List Entry → List Entry
  | [] => [x]
  | y :: ys =>
    if file_date_key y ≤ file_date_key x then x :: y :: ys else y :: insertDesc x ys

/-- Python sorted with key file_date_key and reverse true: stable
descending order (ties keep their original order). -/
def sortDesc : List Entry → List Entry
  | [] => []
  | x :: xs => insertDesc x (sortDesc xs)

-- ### Candidate selection tiers of fetch_latest_pdf

def pyLowerChar (c : Char) : Char :=
  if 'A' ≤ c && c ≤ 'Z' then Char.ofNat (c.toNat + 32) else c

/-- The six date tokens for today: local and UTC today each rendered as
DDMMYYYY, YYYYMMDD and ISO. -/
def patternsForToday (lt ut : Date) : List (List Char) :=
  [fmtDDMMYYYY lt, fmtYYYYMMDD lt, fmtISOd lt,
   fmtDDMMYYYY ut, fmtYYYYMMDD ut, fmtISOd ut]

/-- filename_contains_today: join FileName, FilePath and Path with spaces,
delete separator and whitespace characters, lower case, then test
containment of each token with its dashes removed. -/
def filename_contains_today (lt ut : Date) (e : Entry) : Bool :=
  let s := (e.fileName.getD "") ++ " " ++ (e.filePath.getD "") ++ " " ++ (e.path.getD "")
  let normal := (s.data.filter
    (fun c => !(c == '_' || c == '-' || c == '/' || pyWsChar c))).map pyLowerChar
  (patternsForToday lt ut).any
    (fun p => listContainsSub (p.filter (fun c => !(c == '-'))) normal)

/-- Tier two of the candidate cascade: the inferred date equals local or
UTC today. -/
def metadataMatchesToday (lt ut : Date) (e : Entry) : Bool :=
  match infer_date_safe e with
  | some dt => dt.date = lt || dt.date = ut
  | none => false

/-- The candidate cascade: filename token match, else metadata date match,
else the eight most recent entries by inferred date. -/
def candidateList (pdfs : List Entry) (lt ut : Date) : List Entry :=
  let t1 := pdfs.filter (filename_contains_today lt ut)
  if !t1.isEmpty then t1
  else
    let t2 := pdfs.filter (metadataMatchesToday lt ut)
    if !t2.isEmpty then t2
    else (sortDesc pdfs).take 8

/-- FilePath or Path or Filepath with Python truthiness (empty strings
fall through, a falsy final value means no path). -/
def orTruthy : Option String → Option String → Option String
  | some s, b => if s.isEmpty then b else some s
  | none, b => b

def entryPath (e : Entry) : Option String :=
  orTruthy e.filePath (orTruthy e.path (orTruthy e.filepathC none))

/-- The candidate inspection loop of fetch_latest_pdf.  printed is the
oracle for downloading a candidate and reading the printed first page date
(_download_to_temp plus _extract_report_date_from_pdf); dl says whether
the download itself succeeds.  A candidate is accepted when its printed
date equals the desired date (or today in either zone when no desired
date was given); candidates without a path, with a failed download or
with a non matching or missing printed date are skipped. -/
def inspectLoop (printed : Entry → Option Date) (dl : Entry → Bool)
    (desired : Option Date) (lt ut : Date) : List Entry → Option Entry
  | [] => none
  | e :: rest =>
    match entryPath e with
    | none => inspectLoop printed dl desired lt ut rest
    | some _ =>
      if !(dl e) then inspectLoop printed dl desired lt ut rest
      else
        match printed e, desired with
        | some pd, some dd =>
          if pd = dd then some e else inspectLoop printed dl desired lt ut rest
        | some pd, none =>
          if pd = lt || pd = ut then some e
          else inspectLoop printed dl desired lt ut rest
        | none, _ => inspectLoop printed dl desired lt ut rest

/-- The selection half of fetch_latest_pdf, from the retData list on: keep
only PDF entries, inspect the candidate cascade, and if no candidate was
accepted by printed date fall back to the single most recent entry by
inferred date, accepted with no printed date check (only its path and the
download must succeed). -/
def selectPdf (entries : List Entry) (printed : Entry → Option Date)
    (dl : Entry → Bool) (desired : Option Date) (lt ut : Date) : Option Entry :=
  let pdfs := entries.filter (fun e => e.mimeType == some "application/pdf")
  if pdfs.isEmpty then none
  else
    match inspectLoop printed dl desired lt ut (candidateList pdfs lt ut) with
    | some e => some e
    | none =>
      match (sortDesc pdfs).head? with
      | none => none
      | some latest =>
        match entryPath latest with
        | none => none
        | some _ => if dl latest then some latest else none

-- ### The listing cascade of fetch_latest_pdf (tiers of payload queries)

structure Payload where
  source : Option String
  ptype : Option String
  fileDate : Option String
  month : Option String
deriving DecidableEq, Repr

/-- The module level payload, built from the date at import time. -/
def initialPayload (importNow : Date) : Payload :=
  ⟨some "GRDW", some "DAILY_PSP_REPORT", some (String.mk (fmtISOd importNow)),
   some (String.mk (pad2 importNow.month))⟩

/-- The dict comprehension dropping _fileDate and _month. -/
def stripDateFilters (p : Payload) : Payload := { p with fileDate := none, month := none }

/-- The per day payload of the seven day fallback loop. -/
def dailyPayload (p : Payload) (d : Date) : Payload :=
  ⟨p.source, p.ptype, some (String.mk (fmtISOd d)), some (String.mk (pad2 d.month))⟩

def predDate (d : Date) : Date :=
  if 1 < d.day then ⟨d.year, d.month, d.day - 1⟩
  else if 1 < d.month then ⟨d.year, d.month - 1, daysInMonth d.year (d.month - 1)⟩
  else ⟨d.year - 1, 12, 31⟩

/-- datetime.now() minus a timedelta of n days. -/
def dateSubDays (d : Date) (n : Nat) : Date := predDate^[n] d

/-- Truthiness of response_data and response_data retData: a parsed
response with a non empty file list. -/
def hasRetData : Option (List Entry) → Bool
  | some (_ :: _) => true
  | _ => false

/-- The seven day loop: one query per day walking back from now, stopping
at the first response with data. -/
def scanDays (post : Payload → Option (List Entry)) (p : Payload) (now : Date) :
    Nat → Nat → Option (List Entry)
  | _, 0 => none
  | daysBack, fuel + 1 =>
    let resp := post (dailyPayload p (dateSubDays now daysBack))
    if hasRetData resp then resp else scanDays post p now (daysBack + 1) fuel

/-- The listing half of fetch_latest_pdf.  post is the oracle for
_post_and_get_retdata: it returns the parsed retData list, or none when
the network call or the JSON decoding fails.  Tier one queries with the
given payload, tier two with the date filters removed, tier three walks
the last seven days anchored at now; a failed or empty response at any
tier falls through to the next. -/
def locate (post : Payload → Option (List Entry)) (now : Date) (p0 : Payload) :
    Option (List Entry) :=
  let r0 := post p0
  let r1 := if hasRetData r0 then r0 else post (stripDateFilters p0)
  let r2 := if hasRetData r1 then r1 else scanDays post p0 now 0 7
  if hasRetData r2 then r2 else none

/-- The whole of fetch_latest_pdf: locate a listing, then select and
verify a PDF entry from it. -/
def fetch_latest_pdf (post : Payload → Option (List Entry))
    (printed : Entry → Option Date) (dl : Entry → Bool) (now lt ut : Date)
    (p0 : Payload) (desired : Option Date) : Option Entry :=
  match locate post now p0 with
  | none => none
  | some entries => selectPdf entries printed dl desired lt ut

-- ### Specification side characterization of the listing cascade

/-- The first payload in a list whose query has data; the refinement
target the cascade is compared against. -/
def firstNonEmptyResp (post : Payload → Option (List Entry)) :
    List Payload → Option (List Entry)
  | [] => none
  | p :: ps =>
    let r := post p
    if hasRetData r then r else firstNonEmptyResp post ps

/-- The nine queries the Locator issues, in order: the exact payload, the
payload with date filters removed, then one per day for the seven days
ending at now (anchored at now, the target date does not occur). -/
def payloadsTried (p0 : Payload) (now : Date) : List Payload :=
  p0 :: stripDateFilters p0 ::
    (List.range 7).map (fun i => dailyPayload p0 (dateSubDays now i))

-- ### Helper lemmas: digits, padding and the strptime parsers

theorem Date.valid_bounds {d : Date} (h : d.valid = true) :
    1 ≤ d.year ∧ d.year ≤ 9999 ∧ 1 ≤ d.month ∧ d.month ≤ 12 ∧
    1 ≤ d.day ∧ d.day ≤ daysInMonth d.year d.month := by
  unfold Date.valid at h
  simp only [Bool.and_eq_true, decide_eq_true_eq] at h
  tauto

theorem valid_bounds3 (y m dd : Nat) (h : Date.valid ⟨y, m, dd⟩ = true) :
    1 ≤ y ∧ y ≤ 9999 ∧ 1 ≤ m ∧ m ≤ 12 ∧ 1 ≤ dd ∧ dd ≤ daysInMonth y m := by
  have e := Date.valid_bounds h
  simpa using e

theorem pFour_pad4 (n : Nat) (h : n < 10000) (r : List Char) :
    pFour (pad4 n ++ r) = some (n, r) := by
  simp [pad4, pFour]
  omega

theorem pFour_pad4_nil (n : Nat) (h : n < 10000) : pFour (pad4 n) = some (n, []) := by
  have e := pFour_pad4 n h []
  simpa using e

theorem month2ok_pad2 (m : Nat) (h1 : 1 ≤ m) (h2 : m ≤ 12) :
    month2ok (digitChar (m / 10)) (digitChar m) = true := by
  interval_cases m <;> decide

theorem day2ok_pad2 (d : Nat) (h1 : 1 ≤ d) (h2 : d ≤ 31) :
    day2ok (digitChar (d / 10)) (digitChar d) = true := by
  interval_cases d <;> decide

theorem pMonth_pad2 (m : Nat) (h1 : 1 ≤ m) (h2 : m ≤ 12) (r : List Char) :
    p2or1 month2ok dig19 (pad2 m ++ r) = some (m, r) := by
  simp [pad2, p2or1, month2ok_pad2 m h1 h2]
  omega

theorem pDay_pad2 (d : Nat) (h1 : 1 ≤ d) (h2 : d ≤ 31) (r : List Char) :
    p2or1 day2ok dig19 (pad2 d ++ r) = some (d, r) := by
  simp [pad2, p2or1, day2ok_pad2 d h1 h2]
  omega

theorem pDay_pad2_nil (d : Nat) (h1 : 1 ≤ d) (h2 : d ≤ 31) :
    p2or1 day2ok dig19 (pad2 d) = some (d, []) := by
  have e := pDay_pad2 d h1 h2 []
  simpa using e

theorem pMonth_pad2_nil (m : Nat) (h1 : 1 ≤ m) (h2 : m ≤ 12) :
    p2or1 month2ok dig19 (pad2 m) = some (m, []) := by
  have e := pMonth_pad2 m h1 h2 []
  simpa using e

-- ### Helper lemmas: regex search on the four renderings

theorem reSearch_pat1_iso_shape (n1 n2 n3 n4 n5 n6 n7 n8 : Nat) :
    reSearch pat1 [digitChar n1, digitChar n2, digitChar n3, digitChar n4, '-',
      digitChar n5, digitChar n6, '-', digitChar n7, digitChar n8] =
    some [digitChar n1, digitChar n2, digitChar n3, digitChar n4, '-',
      digitChar n5, digitChar n6, '-', digitChar n7, digitChar n8] := by
  simp [reSearch, matchTpl, tplTake, pat1]

theorem reSearch_pat1_dmy_shape (n1 n2 n3 n4 n5 n6 n7 n8 : Nat) :
    reSearch pat1 [digitChar n1, digitChar n2, '-', digitChar n3, digitChar n4, '-',
      digitChar n5, digitChar n6, digitChar n7, digitChar n8] = none := by
  simp [reSearch, matchTpl, pat1]

theorem reSearch_pat2_dmy_shape (n1 n2 n3 n4 n5 n6 n7 n8 : Nat) :
    reSearch pat2 [digitChar n1, digitChar n2, '-', digitChar n3, digitChar n4, '-',
      digitChar n5, digitChar n6, digitChar n7, digitChar n8] =
    some [digitChar n1, digitChar n2, '-', digitChar n3, digitChar n4, '-',
      digitChar n5, digitChar n6, digitChar n7, digitChar n8] := by
  simp [reSearch, matchTpl, tplTake, pat2]

theorem reSearch_pat1_digs8 (n1 n2 n3 n4 n5 n6 n7 n8 : Nat) :
    reSearch pat1 [digitChar n1, digitChar n2, digitChar n3, digitChar n4,
      digitChar n5, digitChar n6, digitChar n7, digitChar n8] = none := by
  simp [reSearch, matchTpl, pat1]

theorem reSearch_pat2_digs8 (n1 n2 n3 n4 n5 n6 n7 n8 : Nat) :
    reSearch pat2 [digitChar n1, digitChar n2, digitChar n3, digitChar n4,
      digitChar n5, digitChar n6, digitChar n7, digitChar n8] = none := by
  simp [reSearch, matchTpl, pat2]

theorem reSearch_pat3_digs8 (n1 n2 n3 n4 n5 n6 n7 n8 : Nat) :
    reSearch pat3 [digitChar n1, digitChar n2, digitChar n3, digitChar n4,
      digitChar n5, digitChar n6, digitChar n7, digitChar n8] =
    some [digitChar n1, digitChar n2, digitChar n3, digitChar n4,
      digitChar n5, digitChar n6, digitChar n7, digitChar n8] := by
  simp [reSearch, matchTpl, tplTake, pat3]

-- ### Helper lemmas: the date resolver on each rendering

theorem strptimeYmd_fmtISO (y m dd : Nat) (h : Date.valid ⟨y, m, dd⟩ = true) :
    strptimeYmd (fmtISOd ⟨y, m, dd⟩) = some ⟨y, m, dd⟩ := by
  obtain ⟨h1, h2, h3, h4, h5, h6⟩ := valid_bounds3 y m dd h
  have hd31 : dd ≤ 31 := le_trans h6 (daysInMonth_le_31 y m)
  simp [strptimeYmd, fmtISOd, pFour_pad4 y (by omega), pLit,
        pMonth_pad2 m h3 h4, pDay_pad2_nil dd h5 hd31, mkDate, h]

theorem strptimeDmY_fmtDMY (y m dd : Nat) (h : Date.valid ⟨y, m, dd⟩ = true) :
    strptimeDmY (fmtDMYdash ⟨y, m, dd⟩) = some ⟨y, m, dd⟩ := by
  obtain ⟨h1, h2, h3, h4, h5, h6⟩ := valid_bounds3 y m dd h
  have hd31 : dd ≤ 31 := le_trans h6 (daysInMonth_le_31 y m)
  simp [strptimeDmY, fmtDMYdash, pDay_pad2 dd h5 hd31, pLit,
        pMonth_pad2 m h3 h4, pFour_pad4_nil y (by omega), mkDate, h]

theorem strptimeDmY8_fmtDDMMYYYY (y m dd : Nat) (h : Date.valid ⟨y, m, dd⟩ = true) :
    strptimeDmY8 (fmtDDMMYYYY ⟨y, m, dd⟩) = some ⟨y, m, dd⟩ := by
  obtain ⟨h1, h2, h3, h4, h5, h6⟩ := valid_bounds3 y m dd h
  have hd31 : dd ≤ 31 := le_trans h6 (daysInMonth_le_31 y m)
  simp [strptimeDmY8, fmtDDMMYYYY, pDay_pad2 dd h5 hd31,
        pMonth_pad2 m h3 h4, pFour_pad4_nil y (by omega), mkDate, h]

theorem strptimeYmd8_fmtYYYYMMDD (y m dd : Nat) (h : Date.valid ⟨y, m, dd⟩ = true) :
    strptimeYmd8 (fmtYYYYMMDD ⟨y, m, dd⟩) = some ⟨y, m, dd⟩ := by
  obtain ⟨h1, h2, h3, h4, h5, h6⟩ := valid_bounds3 y m dd h
  have hd31 : dd ≤ 31 := le_trans h6 (daysInMonth_le_31 y m)
  simp [strptimeYmd8, fmtYYYYMMDD, pFour_pad4 y (by omega),
        pMonth_pad2 m h3 h4, pDay_pad2_nil dd h5 hd31, mkDate, h]

theorem parse_fmtISO (y m dd : Nat) (h : Date.valid ⟨y, m, dd⟩ = true) :
    parse_date_from_string (fmtISOd ⟨y, m, dd⟩) = some (asDT ⟨y, m, dd⟩) := by
  have hne : (fmtISOd ⟨y, m, dd⟩).isEmpty = false := by simp [fmtISOd, pad4]
  have e1 : reSearch pat1 (fmtISOd ⟨y, m, dd⟩) = some (fmtISOd ⟨y, m, dd⟩) := by
    simp only [fmtISOd, pad4, pad2, List.cons_append, List.nil_append]
    exact reSearch_pat1_iso_shape _ _ _ _ _ _ _ _
  have e2 := strptimeYmd_fmtISO y m dd h
  simp [parse_date_from_string, hne, e1, e2, orO]

theorem parse_fmtDMY (y m dd : Nat) (h : Date.valid ⟨y, m, dd⟩ = true) :
    parse_date_from_string (fmtDMYdash ⟨y, m, dd⟩) = some (asDT ⟨y, m, dd⟩) := by
  have hne : (fmtDMYdash ⟨y, m, dd⟩).isEmpty = false := by simp [fmtDMYdash, pad2]
  have e1 : reSearch pat1 (fmtDMYdash ⟨y, m, dd⟩) = none := by
    simp only [fmtDMYdash, pad4, pad2, List.cons_append, List.nil_append]
    exact reSearch_pat1_dmy_shape _ _ _ _ _ _ _ _
  have e2 : reSearch pat2 (fmtDMYdash ⟨y, m, dd⟩) = some (fmtDMYdash ⟨y, m, dd⟩) := by
    simp only [fmtDMYdash, pad4, pad2, List.cons_append, List.nil_append]
    exact reSearch_pat2_dmy_shape _ _ _ _ _ _ _ _
  have e3 := strptimeDmY_fmtDMY y m dd h
  simp [parse_date_from_string, hne, e1, e2, e3, orO]

theorem parse_fmtDDMMYYYY (y m dd : Nat) (h : Date.valid ⟨y, m, dd⟩ = true) :
    parse_date_from_string (fmtDDMMYYYY ⟨y, m, dd⟩) = some (asDT ⟨y, m, dd⟩) := by
  have hne : (fmtDDMMYYYY ⟨y, m, dd⟩).isEmpty = false := by simp [fmtDDMMYYYY, pad2]
  have e1 : reSearch pat1 (fmtDDMMYYYY ⟨y, m, dd⟩) = none := by
    simp only [fmtDDMMYYYY, pad4, pad2, List.cons_append, List.nil_append]
    exact reSearch_pat1_digs8 _ _ _ _ _ _ _ _
  have e2 : reSearch pat2 (fmtDDMMYYYY ⟨y, m, dd⟩) = none := by
    simp only [fmtDDMMYYYY, pad4, pad2, List.cons_append, List.nil_append]
    exact reSearch_pat2_digs8 _ _ _ _ _ _ _ _
  have e3 : reSearch pat3 (fmtDDMMYYYY ⟨y, m, dd⟩) = some (fmtDDMMYYYY ⟨y, m, dd⟩) := by
    simp only [fmtDDMMYYYY, pad4, pad2, List.cons_append, List.nil_append]
    exact reSearch_pat3_digs8 _ _ _ _ _ _ _ _
  have e4 := strptimeDmY8_fmtDDMMYYYY y m dd h
  simp [parse_date_from_string, hne, e1, e2, e3, e4, orO]

theorem parse_fmtYYYYMMDD_full (y m dd : Nat) (h : Date.valid ⟨y, m, dd⟩ = true) :
    parse_date_from_string (fmtYYYYMMDD ⟨y, m, dd⟩) =
      some (match strptimeDmY8 (fmtYYYYMMDD ⟨y, m, dd⟩) with
        | some d2 => asDT d2
        | none => asDT ⟨y, m, dd⟩) := by
  have hne : (fmtYYYYMMDD ⟨y, m, dd⟩).isEmpty = false := by simp [fmtYYYYMMDD, pad4]
  have e1 : reSearch pat1 (fmtYYYYMMDD ⟨y, m, dd⟩) = none := by
    simp only [fmtYYYYMMDD, pad4, pad2, List.cons_append, List.nil_append]
    exact reSearch_pat1_digs8 _ _ _ _ _ _ _ _
  have e2 : reSearch pat2 (fmtYYYYMMDD ⟨y, m, dd⟩) = none := by
    simp only [fmtYYYYMMDD, pad4, pad2, List.cons_append, List.nil_append]
    exact reSearch_pat2_digs8 _ _ _ _ _ _ _ _
  have e3 : reSearch pat3 (fmtYYYYMMDD ⟨y, m, dd⟩) = some (fmtYYYYMMDD ⟨y, m, dd⟩) := by
    simp only [fmtYYYYMMDD, pad4, pad2, List.cons_append, List.nil_append]
    exact reSearch_pat3_digs8 _ _ _ _ _ _ _ _
  cases hmiss : strptimeDmY8 (fmtYYYYMMDD ⟨y, m, dd⟩) with
  | none =>
    have e4 := strptimeYmd8_fmtYYYYMMDD y m dd h
    simp [parse_date_from_string, pat4, hne, e1, e2, e3, e4, hmiss, orO]
  | some d2 =>
    simp [parse_date_from_string, pat4, hne, e1, e2, e3, hmiss, orO]

-- ### Claim C7

/-- C7: the key normalizer is idempotent on every canonical short key of
Table A and Table G (each canonical key is returned unchanged), and the
rule list is ordered specific before generic: the label Hydro Gen (MU) is
classified by the Hydro Gen rule as hydro, not left to the bare Hydro
rule. -/
theorem C7_key_normalizer_idempotent :
    ((templateA.map Prod.fst ++ templateG.map Prod.fst).all
      (fun k => get_short_key_simple k == k)) = true ∧
    get_short_key_simple "Hydro Gen (MU)" = "hydro" := by
  constructor
  · decide
  · decide

-- ### Claim C9

/-- C9: when structural extraction yields zero tables (the except branch
around tabula.read_pdf) neither table is identified and the fixed template
is emitted, with every canonical key of both tables present and mapped to
the explicit null; the persistence step still runs but writes zero rows to
either store because every template value is null. -/
theorem C9_template_writes_nothing :
    extract_tables_from_pdf [] = templateJson ∧
    (templateA.map Prod.fst =
      ["demand_evening_peak", "peak_shortage", "energy", "hydro", "wind",
       "solar", "energy_shortage", "max_demand_day", "time_of_max_demand"]) ∧
    (templateG.map Prod.fst =
      ["coal", "lignite", "hydro", "nuclear", "gas_naptha_diesel",
       "res_total", "total"]) ∧
    (templateA.all (fun p => p.2 == JVal.jnull)) = true ∧
    (templateG.all (fun p => p.2 == JVal.jnull)) = true ∧
    (∀ now : Date, handleSaveStep now (extract_tables_from_pdf []) = some ([], [])) := by
  refine ⟨by decide, by decide, by decide, by decide, by decide, ?_⟩
  intro now
  rfl

-- ### Claim C3: helper lemmas on the identification loop

theorem findTablesLoop_stop (ts : List PTable) :
    ∀ (extra : List PTable) (a g : Option PTable) (x y : PTable),
      ¬(a.isSome = true ∧ g.isSome = true) →
      findTablesLoop a g ts = (some x, some y) →
      findTablesLoop a g (ts ++ extra) = (some x, some y) := by
  induction ts with
  | nil =>
    intro extra a g x y hng h
    simp only [findTablesLoop] at h
    have ha : a = some x := congrArg Prod.fst h
    have hg : g = some y := congrArg Prod.snd h
    exact absurd ⟨by simp [ha], by simp [hg]⟩ hng
  | cons t rest ih =>
    intro extra a g x y hng h
    simp only [List.cons_append]
    simp only [findTablesLoop] at h ⊢
    by_cases hskip : (t.isEmptyDf || t.cols.length == 0) = true
    · rw [if_pos hskip] at h ⊢
      exact ih extra a g x y hng h
    · rw [if_neg hskip] at h ⊢
      set a2 := (if hasAnchorA t then some t else a) with ha2
      set g2 := (if !hasAnchorA t && hasAnchorG t then some t else g) with hg2
      by_cases hb : (a2.isSome && g2.isSome) = true
      · rw [if_pos hb] at h ⊢
        exact h
      · rw [if_neg hb] at h ⊢
        refine ih extra a2 g2 x y ?_ h
        rintro ⟨hA, hG⟩
        exact hb (by rw [hA, hG]; rfl)


theorem findTablesLoop_lastA (ts : List PTable) :
    ∀ (a : Option PTable), ts ≠ [] →
      (∀ u ∈ ts, (u.isEmptyDf || u.cols.length == 0) = false ∧ hasAnchorA u = true) →
      findTablesLoop a none ts = (ts.getLast?, none) := by
  induction ts with
  | nil => intro a h _; exact absurd rfl h
  | cons t rest ih =>
    intro a _ hall
    obtain ⟨hskip, hA⟩ := hall t (by simp)
    simp only [findTablesLoop]
    rw [if_neg (by simp [hskip])]
    simp only [hA, if_true, Bool.not_true, Bool.false_and, if_neg (by simp : ¬(False : Prop))]
    cases rest with
    | nil => simp [findTablesLoop]
    | cons r rs =>
      have e := ih (some t) (by simp) (fun u hu => hall u (by simp [hu]))
      simpa [List.getLast?] using e

-- ### Claim C3: counterexample data

def cexA1 : PTable :=
  ⟨["X", "NR"], [[some "Demand Met during Evening Peak (MW)", some "1"]]⟩

def cexA2 : PTable :=
  ⟨["X", "NR"], [[some "Demand Met during Evening Peak (MW)", some "2"]]⟩

def cexG1 : PTable := ⟨["X", "NR"], [[some "Coal", some "3"]]⟩

/-- C3 counterexample: with three tables where the first two both match
the Table A anchor, the loop binds Table A to the second matching table,
not the first: later matching tables are considered and rebind the
binding, refuting the first occurrence claim. -/
theorem C3_identification_cex :
    hasAnchorA cexA1 = true ∧ cexA1 ≠ cexA2 ∧
    findTables [cexA1, cexA2, cexG1] = (some cexA2, some cexG1) := by
  refine ⟨by decide, by decide, by decide⟩

/-- C3 amended: scanning does stop as soon as both tables are bound
(appending further tables changes nothing once a scan has bound both),
but while only one anchor has been matched each later matching table
rebinds the binding, so the table bound for an anchor is the last match
seen before the scan stops, not the first. -/
theorem C3_identification_amended :
    (∀ (ts extra : List PTable) (x y : PTable),
      findTables ts = (some x, some y) →
      findTables (ts ++ extra) = (some x, some y)) ∧
    (∀ (ts : List PTable) (a : Option PTable), ts ≠ [] →
      (∀ u ∈ ts, (u.isEmptyDf || u.cols.length == 0) = false ∧ hasAnchorA u = true) →
      findTablesLoop a none ts = (ts.getLast?, none)) :=
  ⟨fun ts extra x y h => findTablesLoop_stop ts extra none none x y (by simp) h,
   fun ts a h1 h2 => findTablesLoop_lastA ts a h1 h2⟩

/-- C3 witness: concrete instances of both conjuncts of the amended
claim. -/
theorem C3_identification_witness :
    findTables ([cexA1, cexG1] ++ [cexA2]) = (some cexA1, some cexG1) ∧
    findTablesLoop none none [cexA1, cexA2] = ([cexA1, cexA2].getLast?, none) :=
  ⟨C3_identification_amended.1 [cexA1, cexG1] [cexA2] cexA1 cexG1 (by decide),
   C3_identification_amended.2 [cexA1, cexA2] none (by decide) (by decide)⟩

-- ### Claim C4

/-- C4 counterexample: the date 2012-03-15 rendered as packed YYYYMMDD is
the string 20120315, which the resolver parses with the earlier DDMMYYYY
pattern as day 20, month 12, year 315: a different calendar date than the
one obtained from the ISO rendering, refuting format invariance. -/
theorem C4_date_resolver_cex :
    parse_date_from_string (fmtISOd ⟨2012, 3, 15⟩) = some (asDT ⟨2012, 3, 15⟩) ∧
    parse_date_from_string (fmtYYYYMMDD ⟨2012, 3, 15⟩) = some (asDT ⟨315, 12, 20⟩) ∧
    asDT ⟨315, 12, 20⟩ ≠ asDT ⟨2012, 3, 15⟩ :=
  ⟨by decide, by decide, by decide⟩

/-- C4 amended: for every valid calendar date, the resolver returns the
date itself from the ISO, dashed DD-MM-YYYY and packed DDMMYYYY
renderings; for the packed YYYYMMDD rendering the earlier DDMMYYYY
pattern is tried first, so the resolver returns the DDMMYYYY reading of
the eight digits whenever that reading is a valid date -- which happens
to coincide with the original date for symmetric strings such as
1010-10-10 but differs in general, as at 2012-03-15 -- and returns the
date itself when the DDMMYYYY reading is invalid. -/
theorem C4_date_resolver_amended (d : Date) (h : d.valid = true) :
    parse_date_from_string (fmtISOd d) = some (asDT d) ∧
    parse_date_from_string (fmtDMYdash d) = some (asDT d) ∧
    parse_date_from_string (fmtDDMMYYYY d) = some (asDT d) ∧
    parse_date_from_string (fmtYYYYMMDD d) =
      some (match strptimeDmY8 (fmtYYYYMMDD d) with
        | some d2 => asDT d2
        | none => asDT d) := by
  obtain ⟨y, m, dd⟩ := d
  exact ⟨parse_fmtISO y m dd h, parse_fmtDMY y m dd h,
         parse_fmtDDMMYYYY y m dd h, parse_fmtYYYYMMDD_full y m dd h⟩

/-- C4 witness: the amended claim applied at 2024-05-06, whose packed
YYYYMMDD rendering has no valid DDMMYYYY reading so the resolver returns
the date itself, and at 1010-10-10, whose DDMMYYYY reading is valid and
happens to be the same date. -/
theorem C4_date_resolver_witness :
    (Date.valid ⟨2024, 5, 6⟩ = true) ∧
    parse_date_from_string (fmtISOd ⟨2024, 5, 6⟩) = some (asDT ⟨2024, 5, 6⟩) ∧
    parse_date_from_string (fmtYYYYMMDD ⟨2024, 5, 6⟩) = some (asDT ⟨2024, 5, 6⟩) ∧
    parse_date_from_string (fmtYYYYMMDD ⟨1010, 10, 10⟩) = some (asDT ⟨1010, 10, 10⟩) := by
  refine ⟨by decide, (C4_date_resolver_amended ⟨2024, 5, 6⟩ (by decide)).1, ?_, ?_⟩
  · have e := (C4_date_resolver_amended ⟨2024, 5, 6⟩ (by decide)).2.2.2
    rw [e]
    decide
  · have e := (C4_date_resolver_amended ⟨1010, 10, 10⟩ (by decide)).2.2.2
    rw [e]
    decide

-- ### Claim C5

def cexTA5 : PTable :=
  ⟨["X", "NR"], [[some "Demand Met during Evening Peak\r(MW)", some "5"]]⟩

def cexTG5 : PTable :=
  ⟨["X", "NR"], [[some "Coal", some "1"], [some "Gas,  Naptha & Diesel", some "2"]]⟩

/-- C5 counterexample: in an identified Table G, the label with a doubled
internal space is emitted under the raw stripped label, not under the
canonical key, although collapsing its whitespace would have matched the
exact equality rule: Table G labels are not whitespace collapsed. -/
theorem C5_label_cleaning_cex :
    extract_tables_from_pdf [cexTA5, cexTG5] =
      ⟨[[("demand_evening_peak", JVal.jdict [("NR", some "5")])]],
       [[("coal", JVal.jdict [("NR", some "1")]),
         ("Gas,  Naptha & Diesel", JVal.jdict [("NR", some "2")])]]⟩ ∧
    get_short_key_simple (collapseWs "Gas,  Naptha & Diesel") = "gas_naptha_diesel" :=
  ⟨by decide, by decide⟩

/-- C5 amended: only Table A labels are cleaned by collapsing embedded
line break and whitespace runs into single spaces and trimming; Table G
labels are only stripped of leading and trailing whitespace before
classification, so an embedded whitespace difference is normalized for
Table A but not for Table G. -/
theorem C5_label_cleaning_amended :
    (∀ (ts : List PTable) (ta tg : PTable),
      findTables ts = (some ta, some tg) →
      extract_tables_from_pdf ts =
        ⟨[processTable collapseWs ta], [processTable pyStrip tg]⟩) ∧
    (∀ (cols : List String) (label : Option String) (cells : List (Option String)),
      (cells.all (fun c => c.isNone)) = false →
      processTable collapseWs ⟨cols, [label :: cells]⟩ =
        [(get_short_key_simple (collapseWs (pyStr label)),
          JVal.jdict (rowToDict cols.tail cells))] ∧
      processTable pyStrip ⟨cols, [label :: cells]⟩ =
        [(get_short_key_simple (pyStrip (pyStr label)),
          JVal.jdict (rowToDict cols.tail cells))]) := by
  constructor
  · intro ts ta tg h
    simp [extract_tables_from_pdf, h]
  · intro cols label cells h
    constructor
    · simp [processTable, keptRows, List.filter, h, dictUpsert, rowShortKey]
    · simp [processTable, keptRows, List.filter, h, dictUpsert, rowShortKey]

/-- C5 witness: concrete instances of both conjuncts of the amended
claim, at the counterexample tables and at a Table A row whose label
carries an embedded carriage return and doubled spaces. -/
theorem C5_label_cleaning_witness :
    extract_tables_from_pdf [cexTA5, cexTG5] =
      ⟨[processTable collapseWs cexTA5], [processTable pyStrip cexTG5]⟩ ∧
    processTable collapseWs ⟨["X", "NR"], [[some "Hydro\r Gen  (MU)", some "7"]]⟩ =
      [(get_short_key_simple (collapseWs (pyStr (some "Hydro\r Gen  (MU)"))),
        JVal.jdict (rowToDict ["NR"] [some "7"]))] :=
  ⟨C5_label_cleaning_amended.1 [cexTA5, cexTG5] cexTA5 cexTG5 (by decide),
   (C5_label_cleaning_amended.2 ["X", "NR"] (some "Hydro\r Gen  (MU)")
     [some "7"] (by decide)).1⟩

-- ### Claim C6: helper lemmas on the dict building fold

theorem dictUpsert_mem {d : List (String × JVal)} {k : String} {v : JVal}
    {p : String × JVal} (h : p ∈ dictUpsert d k v) : p = (k, v) ∨ p ∈ d := by
  unfold dictUpsert at h
  by_cases ha : (d.any (fun q => q.1 == k)) = true
  · rw [if_pos ha] at h
    obtain ⟨q, hq, he⟩ := List.mem_map.mp h
    by_cases hk : (q.1 == k) = true
    · rw [if_pos hk] at he
      exact Or.inl he.symm
    · rw [if_neg hk] at he
      exact Or.inr (he ▸ hq)
  · rw [if_neg ha] at h
    rcases List.mem_append.mp h with h1 | h2
    · exact Or.inr h1
    · exact Or.inl (by simpa using h2)

theorem dictUpsert_self (d : List (String × JVal)) (k : String) (v : JVal) :
    (k, v) ∈ dictUpsert d k v := by
  unfold dictUpsert
  by_cases ha : (d.any (fun q => q.1 == k)) = true
  · rw [if_pos ha]
    obtain ⟨q, hq, hk⟩ := List.any_eq_true.mp ha
    refine List.mem_map.mpr ⟨q, hq, ?_⟩
    rw [if_pos hk]
  · rw [if_neg ha]
    exact List.mem_append.mpr (Or.inr (by simp))

theorem dictUpsert_preserve {d : List (String × JVal)} {k2 : String} {v2 : JVal}
    {k : String} {v : JVal} (hne : k ≠ k2) (h : (k, v) ∈ d) :
    (k, v) ∈ dictUpsert d k2 v2 := by
  unfold dictUpsert
  by_cases ha : (d.any (fun q => q.1 == k2)) = true
  · rw [if_pos ha]
    refine List.mem_map.mpr ⟨(k, v), h, ?_⟩
    rw [if_neg (by simpa using hne)]
  · rw [if_neg ha]
    exact List.mem_append.mpr (Or.inl h)

theorem dictUpsert_key_stable {d : List (String × JVal)} {k : String}
    (k2 : String) (v2 : JVal) (h : ∃ v, (k, v) ∈ d) :
    ∃ v, (k, v) ∈ dictUpsert d k2 v2 := by
  by_cases hk : k = k2
  · subst hk
    exact ⟨v2, dictUpsert_self d k v2⟩
  · obtain ⟨v, hv⟩ := h
    exact ⟨v, dictUpsert_preserve hk hv⟩

theorem foldl_upsert_prop (clean : String → String) (cols : List String)
    (P : String × JVal → Prop) :
    ∀ (rows : List (List (Option String))) (acc : List (String × JVal)),
      (∀ r ∈ rows, P (rowShortKey clean r, JVal.jdict (rowToDict cols r.tail))) →
      (∀ p ∈ acc, P p) →
      ∀ p ∈ rows.foldl (fun dict r2 => dictUpsert dict (rowShortKey clean r2)
        (JVal.jdict (rowToDict cols r2.tail))) acc, P p := by
  intro rows
  induction rows with
  | nil => intro acc _ hacc p hp; exact hacc p hp
  | cons r1 rest ih =>
    intro acc hrows hacc p hp
    rw [List.foldl_cons] at hp
    refine ih _ (fun r hr => hrows r (by simp [hr])) ?_ p hp
    intro q hq
    rcases dictUpsert_mem hq with h1 | h2
    · exact h1 ▸ hrows r1 (by simp)
    · exact hacc q h2

theorem foldl_upsert_key (clean : String → String) (cols : List String) :
    ∀ (rows : List (List (Option String))) (acc : List (String × JVal))
      (r0 : List (Option String)),
      (r0 ∈ rows ∨ ∃ v, (rowShortKey clean r0, v) ∈ acc) →
      ∃ v, (rowShortKey clean r0, v) ∈
        rows.foldl (fun dict r2 => dictUpsert dict (rowShortKey clean r2)
          (JVal.jdict (rowToDict cols r2.tail))) acc := by
  intro rows
  induction rows with
  | nil =>
    intro acc r0 h
    rcases h with h | h
    · exact absurd h (List.not_mem_nil r0)
    · exact h
  | cons r1 rest ih =>
    intro acc r0 h
    rw [List.foldl_cons]
    apply ih
    rcases h with h | h
    · rcases List.mem_cons.mp h with h1 | h2
      · subst h1
        exact Or.inr ⟨_, dictUpsert_self acc _ _⟩
      · exact Or.inl h2
    · exact Or.inr (dictUpsert_key_stable _ _ h)

theorem foldl_upsert_entry (clean : String → String) (cols : List String) :
    ∀ (rows : List (List (Option String))) (acc : List (String × JVal))
      (k : String) (v : JVal),
      (k, v) ∈ acc → (∀ r2 ∈ rows, rowShortKey clean r2 ≠ k) →
      (k, v) ∈ rows.foldl (fun dict r2 => dictUpsert dict (rowShortKey clean r2)
        (JVal.jdict (rowToDict cols r2.tail))) acc := by
  intro rows
  induction rows with
  | nil => intro acc k v h _; exact h
  | cons r1 rest ih =>
    intro acc k v h hne
    rw [List.foldl_cons]
    refine ih _ k v ?_ (fun r hr => hne r (by simp [hr]))
    exact dictUpsert_preserve (fun e => hne r1 (by simp) e.symm) h

theorem rowToDict_no_null (cols : List String) (cells : List (Option String)) :
    ∀ e ∈ rowToDict cols cells, e.2 ≠ none := by
  intro e he
  unfold rowToDict at he
  obtain ⟨q, _, hq⟩ := List.mem_filterMap.mp he
  cases h2 : q.2 with
  | none => rw [h2] at hq; simp at hq
  | some v =>
    rw [h2] at hq
    simp only [Option.some.injEq] at hq
    rw [← hq]
    simp

theorem rowToDict_ne_nil :
    ∀ (cols : List String) (cells : List (Option String)),
      cols.length = cells.length → (cells.all (fun c => c.isNone)) = false →
      rowToDict cols cells ≠ [] := by
  intro cols cells
  induction cells generalizing cols with
  | nil => intro _ hall; simp at hall
  | cons c cs ih =>
    intro hlen hall
    cases cols with
    | nil => simp at hlen
    | cons x xs =>
      cases c with
      | some v => simp [rowToDict]
      | none =>
        have hall2 : (cs.all (fun c => c.isNone)) = false := by simpa using hall
        have e := ih xs (by simpa using hlen) hall2
        simpa [rowToDict] using e

-- ### Claim C6

def cexT6 : PTable :=
  ⟨["0", "NR"],
   [[some "Coal", some "1"], [some "Hydro", some "5"], [some "Hydro Gen (MU)", some "7"]]⟩

/-- C6 counterexample: the row with label Hydro has the non empty value 5,
but the later row Hydro Gen (MU) maps to the same canonical key hydro and
overwrites it in the dict, so the non empty values of the Hydro row are
not retained anywhere in the output mapping. -/
theorem C6_row_emission_cex :
    ([some "Hydro", some "5"] ∈ cexT6.rows) ∧
    processTable pyStrip cexT6 =
      [("coal", JVal.jdict [("NR", some "1")]),
       ("hydro", JVal.jdict [("NR", some "7")])] ∧
    JVal.jdict [("NR", some "5")] ∉ (processTable pyStrip cexT6).map Prod.snd :=
  ⟨by decide, by decide, by decide⟩

/-- C6 amended: rows whose values are all empty are excluded; every
emitted value dict is non empty and contains no nulls; a row with at
least one non empty value always has its canonical key present in the
output; and its non empty values are all retained under that key provided
no other kept row maps to the same canonical key (rows sharing a key are
overwritten by the last of them). -/
theorem C6_row_emission_amended (clean : String → String) (t : PTable)
    (hwf : ∀ r ∈ t.rows, t.cols.length = r.length) :
    (∀ p ∈ processTable clean t,
      ∃ es, p.2 = JVal.jdict es ∧ es ≠ [] ∧ ∀ e ∈ es, e.2 ≠ none) ∧
    (∀ r ∈ t.rows, (r.tail.all (fun c => c.isNone)) = false →
      ∃ v, (rowShortKey clean r, v) ∈ processTable clean t) ∧
    (((keptRows t).map (rowShortKey clean)).Nodup →
      ∀ r ∈ keptRows t,
        (rowShortKey clean r, JVal.jdict (rowToDict t.cols.tail r.tail))
          ∈ processTable clean t) := by
  have hkept : ∀ r ∈ keptRows t,
      (r.tail.all (fun c => c.isNone)) = false ∧ r ∈ t.rows := by
    intro r hr
    have hm := List.mem_filter.mp hr
    exact ⟨by simpa using hm.2, hm.1⟩
  refine ⟨?_, ?_, ?_⟩
  · intro p hp
    unfold processTable at hp
    refine foldl_upsert_prop clean t.cols.tail
      (fun q => ∃ es, q.2 = JVal.jdict es ∧ es ≠ [] ∧ ∀ e ∈ es, e.2 ≠ none)
      (keptRows t) [] ?_ (by simp) p hp
    intro r hr
    obtain ⟨hall, hmem⟩ := hkept r hr
    refine ⟨rowToDict t.cols.tail r.tail, rfl, ?_, rowToDict_no_null _ _⟩
    apply rowToDict_ne_nil
    · have hlen := hwf r hmem
      simp only [List.length_tail]
      omega
    · exact hall
  · intro r hr hall
    unfold processTable
    apply foldl_upsert_key
    exact Or.inl (List.mem_filter.mpr ⟨hr, by simpa using hall⟩)
  · intro hnd r hr
    obtain ⟨l1, l2, hsplit⟩ := List.append_of_mem hr
    unfold processTable
    rw [hsplit, List.foldl_append, List.foldl_cons]
    apply foldl_upsert_entry
    · exact dictUpsert_self _ _ _
    · intro r2 hr2 he
      rw [hsplit] at hnd
      have h2 : ((rowShortKey clean r) :: l2.map (rowShortKey clean)).Nodup := by
        have := hnd
        rw [List.map_append, List.map_cons] at this
        exact this.of_append_right
      have hnotmem := (List.nodup_cons.mp h2).1
      exact hnotmem (he ▸ List.mem_map_of_mem (rowShortKey clean) hr2)

def cexT6W : PTable :=
  ⟨["0", "NR"], [[some "Coal", some "1"], [some "Lignite", some "2"]]⟩

/-- C6 witness: the amended claim applied at a concrete table whose kept
rows carry pairwise distinct canonical keys. -/
theorem C6_row_emission_witness :
    ("coal", JVal.jdict [("NR", some "1")]) ∈ processTable pyStrip cexT6W :=
  (C6_row_emission_amended pyStrip cexT6W (by decide)).2.2 (by decide)
    [some "Coal", some "1"] (by decide)

-- ### Claim C1: helper lemmas on the upsert store

theorem anyKeyA_iff (db : List RowA) (r : RowA) :
    (db.any (fun x => rowKeyA x = rowKeyA r)) = true ↔ rowKeyA r ∈ keysA db := by
  constructor
  · intro h
    obtain ⟨x, hx, hd⟩ := List.any_eq_true.mp h
    have he : rowKeyA x = rowKeyA r := of_decide_eq_true hd
    have hm := List.mem_map_of_mem rowKeyA hx
    rw [he] at hm
    exact hm
  · intro h
    obtain ⟨x, hx, he⟩ := List.mem_map.mp h
    exact List.any_eq_true.mpr ⟨x, hx, decide_eq_true he⟩

theorem keysA_upsert (db : List RowA) (r : RowA) :
    keysA (upsertA db r) =
      if rowKeyA r ∈ keysA db then keysA db else keysA db ++ [rowKeyA r] := by
  by_cases h : rowKeyA r ∈ keysA db
  · rw [if_pos h]
    unfold upsertA
    rw [if_pos ((anyKeyA_iff db r).mpr h)]
    unfold keysA
    rw [List.map_map]
    apply List.map_congr_left
    intro x _
    by_cases hx : rowKeyA x = rowKeyA r
    · simp [hx]
    · simp [hx]
  · rw [if_neg h]
    unfold upsertA
    rw [if_neg (fun hc => h ((anyKeyA_iff db r).mp hc))]
    unfold keysA
    simp

theorem keysA_upsert_mem_self (db : List RowA) (r : RowA) :
    rowKeyA r ∈ keysA (upsertA db r) := by
  rw [keysA_upsert]
  by_cases h : rowKeyA r ∈ keysA db
  · rw [if_pos h]; exact h
  · rw [if_neg h]; simp

theorem keysA_upsert_mono (db : List RowA) (r : RowA) {k : String × Date}
    (h : k ∈ keysA db) : k ∈ keysA (upsertA db r) := by
  rw [keysA_upsert]
  by_cases hm : rowKeyA r ∈ keysA db
  · rw [if_pos hm]; exact h
  · rw [if_neg hm]; exact List.mem_append.mpr (Or.inl h)

theorem keysA_applySave_mono (ws : List RowA) :
    ∀ (db : List RowA) (k : String × Date), k ∈ keysA db →
      k ∈ keysA (applySaveA db ws) := by
  induction ws with
  | nil => intro db k h; exact h
  | cons w rest ih =>
    intro db k h
    unfold applySaveA
    rw [List.foldl_cons]
    exact ih (upsertA db w) k (keysA_upsert_mono db w h)

theorem keysA_mem_applySave (ws : List RowA) :
    ∀ (db : List RowA) (w : RowA), w ∈ ws →
      rowKeyA w ∈ keysA (applySaveA db ws) := by
  induction ws with
  | nil => intro db w h; exact absurd h (List.not_mem_nil w)
  | cons w1 rest ih =>
    intro db w h
    unfold applySaveA
    rw [List.foldl_cons]
    rcases List.mem_cons.mp h with h1 | h2
    · subst h1
      exact keysA_applySave_mono rest (upsertA db w) (rowKeyA w)
        (keysA_upsert_mem_self db w)
    · exact ih (upsertA db w1) w h2

theorem keysA_applySave_id (ws : List RowA) :
    ∀ (db : List RowA), (∀ w ∈ ws, rowKeyA w ∈ keysA db) →
      keysA (applySaveA db ws) = keysA db := by
  induction ws with
  | nil => intro db _; rfl
  | cons w rest ih =>
    intro db h
    unfold applySaveA
    rw [List.foldl_cons]
    have hk : keysA (upsertA db w) = keysA db := by
      rw [keysA_upsert, if_pos (h w (by simp))]
    have e := ih (upsertA db w) (fun w2 hw2 => by rw [hk]; exact h w2 (by simp [hw2]))
    unfold applySaveA at e
    rw [e, hk]

theorem rowWritesA_date (today : Date) (d : List (String × JVal)) :
    ∀ w ∈ rowWritesA today d, w.report_date = today := by
  intro w hw
  obtain ⟨p, _, he⟩ := List.mem_filterMap.mp hw
  cases h2 : p.2 with
  | jnull => rw [h2] at he; simp at he
  | jdict vs =>
    rw [h2] at he
    by_cases hall : (vs.all (fun q => q.2.isNone)) = true
    · simp [hall] at he
    · simp [hall] at he
      rw [← he]

theorem rowWritesG_date (today : Date) (d : List (String × JVal)) :
    ∀ w ∈ rowWritesG today d, w.report_date = today := by
  intro w hw
  obtain ⟨p, _, he⟩ := List.mem_filterMap.mp hw
  cases h2 : p.2 with
  | jnull => rw [h2] at he; simp at he
  | jdict vs =>
    rw [h2] at he
    by_cases hall : (vs.all (fun q => q.2.isNone)) = true
    · simp [hall] at he
    · simp [hall] at he
      rw [← he]

-- ### Generic find? lemmas for the upsert stores

theorem find_map_replace_found {α : Type} (p : α → Bool) (f : α → α) (r : α)
    (hfp : ∀ x, p (f x) = p x) (hall : ∀ x, p x = true → f x = r) :
    ∀ l : List α, l.any p = true → (l.map f).find? p = some r := by
  intro l
  induction l with
  | nil => intro h; simp at h
  | cons x xs ih =>
    intro h
    rw [List.map_cons]
    cases hpf : p (f x) with
    | true =>
      have hpx : p x = true := by rw [← hfp x]; exact hpf
      have e : (f x :: xs.map f).find? p = some (f x) := by
        simp [List.find?, hpf]
      rw [e, hall x hpx]
    | false =>
      have hpx : p x = false := by rw [← hfp x]; exact hpf
      have h2 : xs.any p = true := by
        rcases List.any_eq_true.mp h with ⟨z, hz, hpz⟩
        rcases List.mem_cons.mp hz with rfl | hz2
        · exact absurd hpz (by simp [hpx])
        · exact List.any_eq_true.mpr ⟨z, hz2, hpz⟩
      have e : (f x :: xs.map f).find? p = (xs.map f).find? p := by
        simp [List.find?, hpf]
      rw [e]
      exact ih h2

theorem find_map_congr {α : Type} (p : α → Bool) (f : α → α)
    (h1 : ∀ x, p (f x) = p x) (h2 : ∀ x, p x = true → f x = x) :
    ∀ l : List α, (l.map f).find? p = l.find? p := by
  intro l
  induction l with
  | nil => rfl
  | cons x xs ih =>
    rw [List.map_cons]
    cases hpx : p x with
    | true =>
      have hpf : p (f x) = true := by rw [h1]; exact hpx
      simp [List.find?, hpf, hpx, h2 x hpx]
    | false =>
      have hpf : p (f x) = false := by rw [h1]; exact hpx
      simp only [List.find?, hpf, hpx]
      exact ih

theorem find_append_nomatch {α : Type} (p : α → Bool) (r : α) (hr : p r = false) :
    ∀ l : List α, (l ++ [r]).find? p = l.find? p := by
  intro l
  induction l with
  | nil => simp [List.find?, hr]
  | cons x xs ih =>
    rw [List.cons_append]
    cases hpx : p x with
    | true => simp [List.find?, hpx]
    | false =>
      simp only [List.find?, hpx]
      exact ih

theorem find_append_self {α : Type} (p : α → Bool) (r : α) (hr : p r = true) :
    ∀ l : List α, l.any p = false → (l ++ [r]).find? p = some r := by
  intro l
  induction l with
  | nil => simp [List.find?, hr]
  | cons x xs ih =>
    intro hl
    have hl2 : p x = false ∧ xs.any p = false := by
      constructor
      · cases hpx : p x
        · rfl
        · exact absurd (by simp [List.any_cons, hpx] : (x :: xs).any p = true)
            (by simp [hl])
      · cases hxs : xs.any p
        · rfl
        · exact absurd (by simp [List.any_cons, hxs] : (x :: xs).any p = true)
            (by simp [hl])
    rw [List.cons_append]
    simp only [List.find?, hl2.1]
    exact ih hl2.2

-- ### Lookup lemmas: the upsert really overwrites the stored row

theorem lookupA_upsert_self (db : List RowA) (r : RowA) :
    lookupA (upsertA db r) (rowKeyA r) = some r := by
  unfold lookupA upsertA
  by_cases ha : (db.any (fun x => rowKeyA x = rowKeyA r)) = true
  · rw [if_pos ha]
    refine find_map_replace_found _ _ r ?_ ?_ db ha
    · intro x
      by_cases hx : rowKeyA x = rowKeyA r
      · rw [if_pos hx]
        simp [hx]
      · rw [if_neg hx]
    · intro x hx
      exact if_pos (of_decide_eq_true hx)
  · rw [if_neg ha]
    exact find_append_self _ r (by simp) db (eq_false_of_ne_true ha)

theorem lookupA_upsert_other (db : List RowA) (r : RowA) (k : String × Date)
    (hk : k ≠ rowKeyA r) : lookupA (upsertA db r) k = lookupA db k := by
  unfold lookupA upsertA
  by_cases ha : (db.any (fun x => rowKeyA x = rowKeyA r)) = true
  · rw [if_pos ha]
    refine find_map_congr _ _ ?_ ?_ db
    · intro x
      by_cases hx : rowKeyA x = rowKeyA r
      · rw [if_pos hx]
        simp [hx]
      · rw [if_neg hx]
    · intro x hx
      have he : rowKeyA x = k := of_decide_eq_true hx
      exact if_neg (fun e => hk (he.symm.trans e))
  · rw [if_neg ha]
    exact find_append_nomatch _ r (decide_eq_false (fun e => hk e.symm)) db

theorem lookupA_applySave_keep (ws : List RowA) :
    ∀ (db : List RowA) (k : String × Date) (w : RowA),
      lookupA db k = some w → (∀ w2 ∈ ws, rowKeyA w2 = k → w2 = w) →
      lookupA (applySaveA db ws) k = some w := by
  induction ws with
  | nil => intro db k w h _; exact h
  | cons w1 rest ih =>
    intro db k w h hu
    unfold applySaveA
    rw [List.foldl_cons]
    refine ih (upsertA db w1) k w ?_ (fun w2 hw2 he => hu w2 (by simp [hw2]) he)
    by_cases hk : k = rowKeyA w1
    · have hw1 : w1 = w := hu w1 (by simp) hk.symm
      subst hw1
      rw [hk]
      exact lookupA_upsert_self db w1
    · rw [lookupA_upsert_other db w1 k hk]
      exact h

theorem lookupA_applySave_unique (ws : List RowA) :
    ∀ (db : List RowA) (w : RowA), w ∈ ws →
      (∀ w2 ∈ ws, rowKeyA w2 = rowKeyA w → w2 = w) →
      lookupA (applySaveA db ws) (rowKeyA w) = some w := by
  induction ws with
  | nil => intro db w h _; exact absurd h (List.not_mem_nil w)
  | cons w1 rest ih =>
    intro db w hmem hu
    unfold applySaveA
    rw [List.foldl_cons]
    rcases List.mem_cons.mp hmem with rfl | h2
    · exact lookupA_applySave_keep rest (upsertA db w) (rowKeyA w) w
        (lookupA_upsert_self db w) (fun w2 hw2 he => hu w2 (by simp [hw2]) he)
    · exact ih (upsertA db w1) w h2 (fun w2 hw2 he => hu w2 (by simp [hw2]) he)

-- ### The same facts for the Table G store

theorem anyKeyG_iff (db : List RowG) (r : RowG) :
    (db.any (fun x => rowKeyG x = rowKeyG r)) = true ↔ rowKeyG r ∈ keysG db := by
  constructor
  · intro h
    obtain ⟨x, hx, hd⟩ := List.any_eq_true.mp h
    have he : rowKeyG x = rowKeyG r := of_decide_eq_true hd
    have hm := List.mem_map_of_mem rowKeyG hx
    rw [he] at hm
    exact hm
  · intro h
    obtain ⟨x, hx, he⟩ := List.mem_map.mp h
    exact List.any_eq_true.mpr ⟨x, hx, decide_eq_true he⟩

theorem keysG_upsert (db : List RowG) (r : RowG) :
    keysG (upsertG db r) =
      if rowKeyG r ∈ keysG db then keysG db else keysG db ++ [rowKeyG r] := by
  by_cases h : rowKeyG r ∈ keysG db
  · rw [if_pos h]
    unfold upsertG
    rw [if_pos ((anyKeyG_iff db r).mpr h)]
    unfold keysG
    rw [List.map_map]
    apply List.map_congr_left
    intro x _
    by_cases hx : rowKeyG x = rowKeyG r
    · simp [hx]
    · simp [hx]
  · rw [if_neg h]
    unfold upsertG
    rw [if_neg (fun hc => h ((anyKeyG_iff db r).mp hc))]
    unfold keysG
    simp

theorem keysG_upsert_mem_self (db : List RowG) (r : RowG) :
    rowKeyG r ∈ keysG (upsertG db r) := by
  rw [keysG_upsert]
  by_cases h : rowKeyG r ∈ keysG db
  · rw [if_pos h]; exact h
  · rw [if_neg h]; simp

theorem keysG_upsert_mono (db : List RowG) (r : RowG) {k : String × Date}
    (h : k ∈ keysG db) : k ∈ keysG (upsertG db r) := by
  rw [keysG_upsert]
  by_cases hm : rowKeyG r ∈ keysG db
  · rw [if_pos hm]; exact h
  · rw [if_neg hm]; exact List.mem_append.mpr (Or.inl h)

theorem keysG_applySave_mono (ws : List RowG) :
    ∀ (db : List RowG) (k : String × Date), k ∈ keysG db →
      k ∈ keysG (applySaveG db ws) := by
  induction ws with
  | nil => intro db k h; exact h
  | cons w rest ih =>
    intro db k h
    unfold applySaveG
    rw [List.foldl_cons]
    exact ih (upsertG db w) k (keysG_upsert_mono db w h)

theorem keysG_mem_applySave (ws : List RowG) :
    ∀ (db : List RowG) (w : RowG), w ∈ ws →
      rowKeyG w ∈ keysG (applySaveG db ws) := by
  induction ws with
  | nil => intro db w h; exact absurd h (List.not_mem_nil w)
  | cons w1 rest ih =>
    intro db w h
    unfold applySaveG
    rw [List.foldl_cons]
    rcases List.mem_cons.mp h with h1 | h2
    · subst h1
      exact keysG_applySave_mono rest (upsertG db w) (rowKeyG w)
        (keysG_upsert_mem_self db w)
    · exact ih (upsertG db w1) w h2

theorem keysG_applySave_id (ws : List RowG) :
    ∀ (db : List RowG), (∀ w ∈ ws, rowKeyG w ∈ keysG db) →
      keysG (applySaveG db ws) = keysG db := by
  induction ws with
  | nil => intro db _; rfl
  | cons w rest ih =>
    intro db h
    unfold applySaveG
    rw [List.foldl_cons]
    have hk : keysG (upsertG db w) = keysG db := by
      rw [keysG_upsert, if_pos (h w (by simp))]
    have e := ih (upsertG db w) (fun w2 hw2 => by rw [hk]; exact h w2 (by simp [hw2]))
    unfold applySaveG at e
    rw [e, hk]

theorem lookupG_upsert_self (db : List RowG) (r : RowG) :
    lookupG (upsertG db r) (rowKeyG r) = some r := by
  unfold lookupG upsertG
  by_cases ha : (db.any (fun x => rowKeyG x = rowKeyG r)) = true
  · rw [if_pos ha]
    refine find_map_replace_found _ _ r ?_ ?_ db ha
    · intro x
      by_cases hx : rowKeyG x = rowKeyG r
      · rw [if_pos hx]
        simp [hx]
      · rw [if_neg hx]
    · intro x hx
      exact if_pos (of_decide_eq_true hx)
  · rw [if_neg ha]
    exact find_append_self _ r (by simp) db (eq_false_of_ne_true ha)

theorem lookupG_upsert_other (db : List RowG) (r : RowG) (k : String × Date)
    (hk : k ≠ rowKeyG r) : lookupG (upsertG db r) k = lookupG db k := by
  unfold lookupG upsertG
  by_cases ha : (db.any (fun x => rowKeyG x = rowKeyG r)) = true
  · rw [if_pos ha]
    refine find_map_congr _ _ ?_ ?_ db
    · intro x
      by_cases hx : rowKeyG x = rowKeyG r
      · rw [if_pos hx]
        simp [hx]
      · rw [if_neg hx]
    · intro x hx
      have he : rowKeyG x = k := of_decide_eq_true hx
      exact if_neg (fun e => hk (he.symm.trans e))
  · rw [if_neg ha]
    exact find_append_nomatch _ r (decide_eq_false (fun e => hk e.symm)) db

theorem lookupG_applySave_keep (ws : List RowG) :
    ∀ (db : List RowG) (k : String × Date) (w : RowG),
      lookupG db k = some w → (∀ w2 ∈ ws, rowKeyG w2 = k → w2 = w) →
      lookupG (applySaveG db ws) k = some w := by
  induction ws with
  | nil => intro db k w h _; exact h
  | cons w1 rest ih =>
    intro db k w h hu
    unfold applySaveG
    rw [List.foldl_cons]
    refine ih (upsertG db w1) k w ?_ (fun w2 hw2 he => hu w2 (by simp [hw2]) he)
    by_cases hk : k = rowKeyG w1
    · have hw1 : w1 = w := hu w1 (by simp) hk.symm
      subst hw1
      rw [hk]
      exact lookupG_upsert_self db w1
    · rw [lookupG_upsert_other db w1 k hk]
      exact h

theorem lookupG_applySave_unique (ws : List RowG) :
    ∀ (db : List RowG) (w : RowG), w ∈ ws →
      (∀ w2 ∈ ws, rowKeyG w2 = rowKeyG w → w2 = w) →
      lookupG (applySaveG db ws) (rowKeyG w) = some w := by
  induction ws with
  | nil => intro db w h _; exact absurd h (List.not_mem_nil w)
  | cons w1 rest ih =>
    intro db w hmem hu
    unfold applySaveG
    rw [List.foldl_cons]
    rcases List.mem_cons.mp hmem with rfl | h2
    · exact lookupG_applySave_keep rest (upsertG db w) (rowKeyG w) w
        (lookupG_upsert_self db w) (fun w2 hw2 he => hu w2 (by simp [hw2]) he)
    · exact ih (upsertG db w1) w h2 (fun w2 hw2 he => hu w2 (by simp [hw2]) he)

-- ### Claim C1

def fjC1 : FinalJson := ⟨[[("energy", JVal.jdict [("NR", some "100")])]], []⟩

/-- C1 counterexample: a run whose resolved target date is 2025-01-01
(the date argument parses to it) but which executes when the wall clock
date is 2025-06-05 persists its row keyed by 2025-06-05: save_to_db reads
datetime.now and never receives the target date, so the persisted
report_date is not the target date of the run. -/
theorem C1_report_date_cex :
    handleTargetDate (some "01-01-2025") ⟨2025, 6, 5⟩ = some ⟨2025, 1, 1⟩ ∧
    handleSaveStep ⟨2025, 6, 5⟩ fjC1 =
      some ([⟨"energy", ⟨2025, 6, 5⟩, some "100", none, none, none, none, none⟩], []) ∧
    (⟨2025, 6, 5⟩ : Date) ≠ ⟨2025, 1, 1⟩ :=
  ⟨by decide, by decide, by decide⟩

/-- C1 amended: every persisted row is keyed by (report_date, category)
or (report_date, fuel_type) where report_date is the wall clock date when
save_to_db runs -- which equals the target date of the run only when the
run targets the current day -- and re-running for the same date upserts
into both stores rather than duplicating: an upsert overwrites the stored
row for its key (looking the key up afterwards returns the new row) and
leaves every other key untouched; applying a whole write list whose keys
are unambiguous makes each key hold its written row; writes to existing
keys leave the key set unchanged; and re-applying the same writes never
duplicates keys.  All five facts hold for the Table A store and for the
Table G store alike. -/
theorem C1_report_date_amended :
    (∀ (now : Date) (fj : FinalJson),
      (∀ w ∈ (save_to_db now fj).1, w.report_date = now) ∧
      (∀ w ∈ (save_to_db now fj).2, w.report_date = now)) ∧
    (∀ (db : List RowA) (r : RowA), lookupA (upsertA db r) (rowKeyA r) = some r) ∧
    (∀ (db : List RowA) (r : RowA) (k : String × Date), k ≠ rowKeyA r →
      lookupA (upsertA db r) k = lookupA db k) ∧
    (∀ (db ws : List RowA) (w : RowA), w ∈ ws →
      (∀ w2 ∈ ws, rowKeyA w2 = rowKeyA w → w2 = w) →
      lookupA (applySaveA db ws) (rowKeyA w) = some w) ∧
    (∀ (db ws : List RowA),
      (∀ w ∈ ws, rowKeyA w ∈ keysA db) → keysA (applySaveA db ws) = keysA db) ∧
    (∀ (db ws : List RowA),
      keysA (applySaveA (applySaveA db ws) ws) = keysA (applySaveA db ws)) ∧
    (∀ (db : List RowG) (r : RowG), lookupG (upsertG db r) (rowKeyG r) = some r) ∧
    (∀ (db : List RowG) (r : RowG) (k : String × Date), k ≠ rowKeyG r →
      lookupG (upsertG db r) k = lookupG db k) ∧
    (∀ (db ws : List RowG) (w : RowG), w ∈ ws →
      (∀ w2 ∈ ws, rowKeyG w2 = rowKeyG w → w2 = w) →
      lookupG (applySaveG db ws) (rowKeyG w) = some w) ∧
    (∀ (db ws : List RowG),
      (∀ w ∈ ws, rowKeyG w ∈ keysG db) → keysG (applySaveG db ws) = keysG db) ∧
    (∀ (db ws : List RowG),
      keysG (applySaveG (applySaveG db ws) ws) = keysG (applySaveG db ws)) := by
  refine ⟨?_, lookupA_upsert_self, lookupA_upsert_other,
    fun db ws w hm hu => lookupA_applySave_unique ws db w hm hu,
    fun db ws h => keysA_applySave_id ws db h, ?_,
    lookupG_upsert_self, lookupG_upsert_other,
    fun db ws w hm hu => lookupG_applySave_unique ws db w hm hu,
    fun db ws h => keysG_applySave_id ws db h, ?_⟩
  · intro now fj
    constructor
    · intro w hw
      simp only [save_to_db] at hw
      rcases hta : fj.tableA with _ | ⟨d, rest⟩
      · rw [hta] at hw; simp at hw
      · rw [hta] at hw
        by_cases hde : d.isEmpty = true
        · simp [hde] at hw
        · simp [hde] at hw
          exact rowWritesA_date now d w hw
    · intro w hw
      simp only [save_to_db] at hw
      rcases htg : fj.tableG with _ | ⟨d, rest⟩
      · rw [htg] at hw; simp at hw
      · rw [htg] at hw
        by_cases hde : d.isEmpty = true
        · simp [hde] at hw
        · simp [hde] at hw
          exact rowWritesG_date now d w hw
  · intro db ws
    exact keysA_applySave_id ws (applySaveA db ws)
      (fun w hw => keysA_mem_applySave ws db w hw)
  · intro db ws
    exact keysG_applySave_id ws (applySaveG db ws)
      (fun w hw => keysG_mem_applySave ws db w hw)

def dbC1 : List RowA :=
  [⟨"energy", ⟨2025, 6, 5⟩, some "1", none, none, none, none, none⟩]

def wsC1 : List RowA :=
  [⟨"energy", ⟨2025, 6, 5⟩, some "2", none, none, none, none, none⟩]

def dbG1 : List RowG :=
  [⟨"coal", ⟨2025, 6, 5⟩, some "1", none, none, none, none, none, none⟩]

def wsG1 : List RowG :=
  [⟨"coal", ⟨2025, 6, 5⟩, some "2", none, none, none, none, none, none⟩]

/-- C1 witness: the amended upsert properties at concrete stores and
write lists sharing keys (energy, 2025-06-05) and (coal, 2025-06-05):
the re-run replaces the stored values and adds no key to either store. -/
theorem C1_report_date_witness :
    lookupA (applySaveA dbC1 wsC1) ("energy", ⟨2025, 6, 5⟩) =
      some ⟨"energy", ⟨2025, 6, 5⟩, some "2", none, none, none, none, none⟩ ∧
    keysA (applySaveA dbC1 wsC1) = keysA dbC1 ∧
    keysA (applySaveA (applySaveA dbC1 wsC1) wsC1) = keysA (applySaveA dbC1 wsC1) ∧
    lookupG (applySaveG dbG1 wsG1) ("coal", ⟨2025, 6, 5⟩) =
      some ⟨"coal", ⟨2025, 6, 5⟩, some "2", none, none, none, none, none, none⟩ ∧
    keysG (applySaveG dbG1 wsG1) = keysG dbG1 := by
  obtain ⟨h1, h2, h3, h4, h5, h6, h7, h8, h9, h10, h11⟩ := C1_report_date_amended
  exact ⟨h4 dbC1 wsC1
      ⟨"energy", ⟨2025, 6, 5⟩, some "2", none, none, none, none, none⟩
      (by decide) (by decide),
    h5 dbC1 wsC1 (by decide), h6 dbC1 wsC1,
    h9 dbG1 wsG1
      ⟨"coal", ⟨2025, 6, 5⟩, some "2", none, none, none, none, none, none⟩
      (by decide) (by decide),
    h10 dbG1 wsG1 (by decide)⟩

-- ### Claim C10

/-- C10: when exactly one of the two tables is identified, the empty
template is not used: the identified table is normalized and emitted, the
missing table keeps an empty output list, and the persistence step still
runs, writing rows only for the identified table. -/
theorem C10_single_table (ts : List PTable) (t : PTable) (now : Date) :
    (findTables ts = (some t, none) →
      extract_tables_from_pdf ts = ⟨[processTable collapseWs t], []⟩ ∧
      handleSaveStep now (extract_tables_from_pdf ts) =
        some (save_to_db now (extract_tables_from_pdf ts)) ∧
      (save_to_db now (extract_tables_from_pdf ts)).2 = []) ∧
    (findTables ts = (none, some t) →
      extract_tables_from_pdf ts = ⟨[], [processTable pyStrip t]⟩ ∧
      handleSaveStep now (extract_tables_from_pdf ts) =
        some (save_to_db now (extract_tables_from_pdf ts)) ∧
      (save_to_db now (extract_tables_from_pdf ts)).1 = []) := by
  constructor
  · intro h
    have he : extract_tables_from_pdf ts = ⟨[processTable collapseWs t], []⟩ := by
      simp [extract_tables_from_pdf, h]
    refine ⟨he, ?_, ?_⟩
    · rw [he]
      simp [handleSaveStep]
    · rw [he]
      simp [save_to_db]
  · intro h
    have he : extract_tables_from_pdf ts = ⟨[], [processTable pyStrip t]⟩ := by
      simp [extract_tables_from_pdf, h]
    refine ⟨he, ?_, ?_⟩
    · rw [he]
      simp [handleSaveStep]
    · rw [he]
      simp [save_to_db]

def cexTA10 : PTable :=
  ⟨["X", "NR"], [[some "Demand Met during Evening Peak (MW)", some "4"]]⟩

/-- C10 witness: a run whose only identified table is Table A. -/
theorem C10_single_table_witness :
    extract_tables_from_pdf [cexTA10] = ⟨[processTable collapseWs cexTA10], []⟩ ∧
    handleSaveStep ⟨2025, 6, 5⟩ (extract_tables_from_pdf [cexTA10]) =
      some (save_to_db ⟨2025, 6, 5⟩ (extract_tables_from_pdf [cexTA10])) ∧
    (save_to_db ⟨2025, 6, 5⟩ (extract_tables_from_pdf [cexTA10])).2 = [] :=
  (C10_single_table [cexTA10] cexTA10 ⟨2025, 6, 5⟩).1 (by decide)

-- ### Claim C8: helper lemmas on the query cascade

theorem firstNonEmptyResp_idem (post : Payload → Option (List Entry)) :
    ∀ ps : List Payload,
      (if hasRetData (firstNonEmptyResp post ps) then firstNonEmptyResp post ps
       else none) = firstNonEmptyResp post ps := by
  intro ps
  induction ps with
  | nil => simp [firstNonEmptyResp, hasRetData]
  | cons p rest ih =>
    simp only [firstNonEmptyResp]
    by_cases h : hasRetData (post p) = true
    · rw [if_pos h, if_pos h]
    · rw [if_neg h]
      exact ih

theorem scanDays_eq (post : Payload → Option (List Entry)) (p : Payload) (now : Date) :
    ∀ (fuel k : Nat),
      scanDays post p now k fuel =
        firstNonEmptyResp post ((List.range fuel).map
          (fun i => dailyPayload p (dateSubDays now (k + i)))) := by
  intro fuel
  induction fuel with
  | zero => intro k; simp [scanDays, firstNonEmptyResp]
  | succ n ih =>
    intro k
    have e1 : scanDays post p now k (n + 1) =
        (if hasRetData (post (dailyPayload p (dateSubDays now k)))
         then post (dailyPayload p (dateSubDays now k))
         else scanDays post p now (k + 1) n) := rfl
    rw [e1, ih (k + 1), List.range_succ_eq_map, List.map_cons, List.map_map]
    simp only [firstNonEmptyResp, Nat.add_zero]
    have hm : (List.map ((fun i => dailyPayload p (dateSubDays now (k + i))) ∘ Nat.succ)
          (List.range n)) =
        (List.map (fun i => dailyPayload p (dateSubDays now (k + 1 + i))) (List.range n)) := by
      apply List.map_congr_left
      intro i _
      simp only [Function.comp_apply, Nat.succ_eq_add_one]
      have e2 : k + (i + 1) = k + 1 + i := by omega
      rw [e2]
    rw [hm]

/-- C8: the Report Locator issues its queries in the fixed order exact
filters, filters removed, then one query per day for the seven days
ending at now, stopping at the first non empty listing; a failed network
call or JSON decode (a none response) is treated exactly like an empty
listing and triggers the next tier; and the seven day scan is anchored at
the wall clock now (the target date of the run does not occur in the
payload list at all). -/
theorem C8_locator_cascade (post : Payload → Option (List Entry)) (now : Date)
    (p0 : Payload) :
    locate post now p0 = firstNonEmptyResp post (payloadsTried p0 now) := by
  have hsd : scanDays post p0 now 0 7 =
      firstNonEmptyResp post ((List.range 7).map
        (fun i => dailyPayload p0 (dateSubDays now i))) := by
    rw [scanDays_eq post p0 now 7 0]
    apply congrArg
    apply List.map_congr_left
    intro i _
    rw [Nat.zero_add]
  by_cases h0 : hasRetData (post p0) = true
  · have er : firstNonEmptyResp post (payloadsTried p0 now) = post p0 := by
      simp only [payloadsTried, firstNonEmptyResp]
      rw [if_pos h0]
    have el : locate post now p0 = post p0 := by
      simp only [locate]
      rw [if_pos h0, if_pos h0, if_pos h0]
    rw [el, er]
  · by_cases h1 : hasRetData (post (stripDateFilters p0)) = true
    · have er : firstNonEmptyResp post (payloadsTried p0 now) =
          post (stripDateFilters p0) := by
        simp only [payloadsTried, firstNonEmptyResp]
        rw [if_neg h0, if_pos h1]
      have el : locate post now p0 = post (stripDateFilters p0) := by
        simp only [locate]
        rw [if_neg h0, if_pos h1, if_pos h1]
      rw [el, er]
    · have er : firstNonEmptyResp post (payloadsTried p0 now) =
          firstNonEmptyResp post ((List.range 7).map
            (fun i => dailyPayload p0 (dateSubDays now i))) := by
        simp only [payloadsTried, firstNonEmptyResp]
        rw [if_neg h0, if_neg h1]
      have el : locate post now p0 =
          (if hasRetData (scanDays post p0 now 0 7) then scanDays post p0 now 0 7
           else none) := by
        simp only [locate]
        rw [if_neg h0, if_neg h1]
      rw [el, er, hsd]
      exact firstNonEmptyResp_idem post _

-- ### Claim C2

/-- C2: whenever the candidate inspection loop accepts nothing (no
downloaded candidate has a printed first page date matching the desired
date), fetch_latest_pdf falls through to the unconditional fallback: the
single most recent entry by inferred date is re-downloaded and accepted
with no printed date check at all -- the conclusion holds whatever its
printed date is, only its path and download must succeed -- so a run can
return an accepted PDF whose date was never confirmed. -/
theorem C2_fallback_unverified (entries : List Entry) (printed : Entry → Option Date)
    (dl : Entry → Bool) (desired lt ut : Date) (top : Entry)
    (hloop : inspectLoop printed dl (some desired) lt ut
      (candidateList (entries.filter (fun e => e.mimeType == some "application/pdf"))
        lt ut) = none)
    (htop : (sortDesc (entries.filter
      (fun e => e.mimeType == some "application/pdf"))).head? = some top)
    (hpath : (entryPath top).isSome = true)
    (hdl : dl top = true) :
    selectPdf entries printed dl (some desired) lt ut = some top := by
  set pdfs := entries.filter (fun e => e.mimeType == some "application/pdf") with hp
  cases hep : entryPath top with
  | none => rw [hep] at hpath; simp at hpath
  | some s =>
    have hcond : ¬(pdfs.isEmpty = true) := by
      cases hf : pdfs with
      | nil => rw [hf] at htop; simp [sortDesc] at htop
      | cons a b => simp
    simp only [selectPdf]
    rw [← hp, if_neg hcond, hloop, htop]
    simp [hep, hdl]

def cexEntry2 : Entry :=
  { mimeType := some "application/pdf", fileDate := none, createdOn := none,
    lastModified := none, fileDateL := none, createdOnL := none,
    lastModifiedL := none, filePath := some "reports/psp.pdf",
    fileName := some "psp.pdf", path := none, fileNameL := none,
    filepathL := none, filepathC := none }

def cexPrinted2 : Entry → Option Date := fun _ => some ⟨2020, 1, 1⟩

def cexDl2 : Entry → Bool := fun _ => true

/-- C2 witness: a listing with one PDF entry whose printed date 2020-01-01
differs from the desired date 2024-03-03; the inspection loop accepts
nothing and the fallback still accepts the entry. -/
theorem C2_fallback_witness :
    selectPdf [cexEntry2] cexPrinted2 cexDl2 (some ⟨2024, 3, 3⟩)
      ⟨2024, 3, 4⟩ ⟨2024, 3, 4⟩ = some cexEntry2 ∧
    cexPrinted2 cexEntry2 ≠ some ⟨2024, 3, 3⟩ :=
  ⟨C2_fallback_unverified [cexEntry2] cexPrinted2 cexDl2 ⟨2024, 3, 3⟩
      ⟨2024, 3, 4⟩ ⟨2024, 3, 4⟩ cexEntry2 (by decide) (by decide) (by decide)
      (by decide), by decide⟩
